import Mathlib

/-!
Shallow embedding of the scoring and assignment core of the HotS draft tool
(`src/app.js`): the statistics catalog lookups, the per-player win-rate delta,
the hero scoring breakdown with explanation tags, the recommendation ranker,
and the hero-to-player assignment resolver.

Modelling conventions:
- JS numbers are rationals (`ℚ`); the catalog and player tables are total
  functions from names to `Option` records (a JS object lookup that may be
  `undefined` is `none`).
- JS arrays of the draft are 5-slot lists; loops `for (i = 0; i < 5; i++)`
  become folds over `List.range 5`, and out-of-range reads default to
  `none`/`false` exactly as `undefined` does in the source's guards.
- The one place the source can throw (`heroData.global.win_rate` dereferenced
  while `global` is absent, in the three tag branches of `calculateHeroScore`)
  is modelled with `Except Unit`: `.error ()` is the thrown `TypeError`.
- Display strings built by template literals are elided: a `Tag` keeps the
  interpolated subject (map / hero / player name) and the numeric fields
  instead of the rendered text.
-/

/-- An entry of the `this.heroes` registry (loaded from `heroes.json`). -/
structure Hero where
  name : String
  slug : String
  new_role : Option String
deriving DecidableEq

/-- A statistics block of the combined catalog (`global`, a per-map record, or
one side of a matchup): an optional confidence-adjusted delta and win rate. -/
structure StatBlock where
  confidence_adjusted_delta : Option ℚ
  win_rate : Option ℚ

/-- A matchup record of the catalog, with optional `enemy` and `ally` sides. -/
structure MatchupRecord where
  enemy : Option StatBlock
  ally : Option StatBlock

/-- A per-hero record of `this.heroesData`: optional `global` block, per-map
table keyed by map name, and matchup table keyed by the other hero's name. -/
structure HeroData where
  global : Option StatBlock
  maps : Option (String → Option StatBlock)
  matchups : Option (String → Option MatchupRecord)

/-- An entry of the `this.maps` registry: slug (dropdown value) and name. -/
structure MapInfo where
  slug : String
  name : String
deriving DecidableEq

/-- A per-hero row of a player profile bucket
(`{games_played, win_rate, ...}`). -/
structure PlayerHeroStats where
  games_played : ℕ
  win_rate : Option ℚ

/-- A fetched player profile: battletag plus the two game-type buckets the
code reads (`'Quick Match'` and `'Storm League'`), each an optional table
from hero name to stats. -/
structure Player where
  battletag : String
  qm : Option (String → Option PlayerHeroStats)
  sl : Option (String → Option PlayerHeroStats)

/-- One team's draft state: `bans`, `picks`, `assignments` (player index per
pick slot), `manualAssignments` flags, and the team's `playerStats` row. -/
structure TeamState where
  bans : List (Option Hero)
  picks : List (Option Hero)
  assignments : List (Option ℕ)
  manualAssignments : List Bool
  players : List (Option Player)

/-- The global context read by the scorer and ranker: `this.heroesData`,
`this.heroes`, `this.maps` and `this.selectedMap`. -/
structure Ctx where
  heroesData : String → Option HeroData
  heroes : List Hero
  maps : List MapInfo
  selectedMap : Option String

/-- JS `x || 50` applied to an optional numeric win rate: an absent field or
a recorded value of `0` (both falsy) fall back to `50`. -/
def wrOr50 : Option ℚ → ℚ
  | none => 50
  | some x => if x = 0 then 50 else x

/-- `Math.abs`. Written with `if` so that proofs by kernel evaluation reduce;
`jsAbs_eq_abs` identifies it with Mathlib's `|·|`. -/
def jsAbs (a : ℚ) : ℚ := if a < 0 then -a else a

/-- `Math.max`. -/
def jsMax (a b : ℚ) : ℚ := if a ≤ b then b else a

/-- `Math.min`. -/
def jsMin (a b : ℚ) : ℚ := if a ≤ b then a else b

/-- `Math.max(-5, Math.min(5, d))`: the ±5 percentage-point cap. -/
def cap5 (d : ℚ) : ℚ := jsMax (-5) (jsMin 5 d)

/-- One game-type bucket of `getPlayerHeroWinRateDelta` (app.js:1708-1732):
a qualifying (`games_played >= 25`) entry with more games than seen so far
replaces the accumulated (games, delta) pair. -/
def deltaBucketStep (heroName : String) (acc : ℕ × ℚ)
    (bucket : Option (String → Option PlayerHeroStats)) : ℕ × ℚ :=
  match bucket with
  | none => acc
  | some tbl =>
    match tbl heroName with
    | none => acc
    | some st =>
      if 25 ≤ st.games_played then
        if acc.1 < st.games_played then
          (st.games_played, cap5 (wrOr50 st.win_rate - 50))
        else acc
      else acc

/-- `getPlayerHeroWinRateDelta(player, heroName)` (app.js:1699): scan the two
game-type buckets, keep the capped win-rate-minus-50 of the qualifying
(`games_played >= 25`) bucket with the most games. -/
def getPlayerHeroWinRateDelta (p : Player) (heroName : String) : ℚ :=
  ([p.qm, p.sl].foldl (deltaBucketStep heroName) (0, 0)).2

/-- The scan of app.js:1608: player `i` is taken when some assignment slot
references `i` and that slot's pick is occupied. -/
def isAssignedToHero (assignments : List (Option ℕ)) (picks : List (Option Hero))
    (i : ℕ) : Bool :=
  (assignments.zip picks).any fun ap => decide (ap.1 = some i) && ap.2.isSome

/-- One player of the `getPlayerWinRateDelta` loop (app.js:1598-1626): skip
empty slots and taken players, else keep the delta when its magnitude
strictly beats the accumulator's. -/
def bestDeltaStep (assignments : List (Option ℕ)) (picks : List (Option Hero))
    (heroName : String) (best : ℚ) (ip : ℕ × Option Player) : ℚ :=
  match ip.2 with
  | none => best
  | some p =>
    if isAssignedToHero assignments picks ip.1 then best
    else
      let d := getPlayerHeroWinRateDelta p heroName
      if jsAbs best < jsAbs d then d else best

/-- `getPlayerWinRateDelta(heroName, team, assignments)` (app.js:1584): the
first maximum-magnitude per-player delta over players not assigned to a
picked slot, starting from 0. -/
def getPlayerWinRateDelta (players : List (Option Player))
    (assignments : List (Option ℕ)) (picks : List (Option Hero))
    (heroName : String) : ℚ :=
  players.enum.foldl (bestDeltaStep assignments picks heroName) 0

/-- The kinds of explanation tags pushed by `calculateHeroScore`. -/
inductive TagKind
  | map
  | counter
  | weakness
  | synergy
  | antisynergy
  | player
deriving DecidableEq

/-- An explanation tag. `subject` is the map / hero / player name the text
interpolates; `score` the numeric contribution; `winRate` the auxiliary win
rate carried by map/matchup tags (the player tag has none). -/
structure Tag where
  kind : TagKind
  subject : String
  score : ℚ
  winRate : Option ℚ
deriving DecidableEq

/-- The five-component breakdown object of `calculateHeroScore`. -/
structure Breakdown where
  global : ℚ
  map : ℚ
  vsEnemy : ℚ
  withAllies : ℚ
  playerDelta : ℚ
deriving DecidableEq

/-- The return value of `calculateHeroScore`. For a hero absent from the
catalog the source returns `breakdown: {}` and no `baseWinRate`; both are
modelled as `none`. -/
structure ScoreResult where
  total : ℚ
  breakdown : Option Breakdown
  tags : List Tag
  expectedWinRate : ℚ
  baseWinRate : Option ℚ
deriving DecidableEq

/-- `heroData.global.win_rate || 50`: throws a `TypeError` when `global` is
absent (app.js:1985, 2009, 2033), modelled as `.error ()`. -/
def globalWinRate (hd : HeroData) : Except Unit ℚ :=
  match hd.global with
  | none => .error ()
  | some g => .ok (wrOr50 g.win_rate)

/-- Step 2 of `calculateHeroScore`: the selected map's confidence-adjusted
delta and, when its magnitude reaches 3, a map tag. -/
def mapComponent (ctx : Ctx) (hd : HeroData) : Except Unit (ℚ × List Tag) :=
  match ctx.selectedMap, hd.maps with
  | some sel, some mapsTbl =>
    match ctx.maps.find? (fun m => m.slug == sel) with
    | some mi =>
      match mapsTbl mi.name with
      | some md =>
        match md.confidence_adjusted_delta with
        | some d =>
          if 3 ≤ jsAbs d then
            match globalWinRate hd with
            | .error e => .error e
            | .ok gw => .ok (d, [⟨TagKind.map, mi.name, d, some (gw + d)⟩])
          else .ok (d, [])
        | none => .ok (0, [])
      | none => .ok (0, [])
    | none => .ok (0, [])
  | _, _ => .ok (0, [])

/-- The matchup delta the code reads for an enemy pick named `nm`:
`matchups[nm].enemy.confidence_adjusted_delta`, defaulting to 0. -/
def enemyDeltaOf (hd : HeroData) (nm : String) : ℚ :=
  (((hd.matchups.bind fun mu => mu nm).bind MatchupRecord.enemy).bind
    StatBlock.confidence_adjusted_delta).getD 0

/-- The matchup delta the code reads for an ally pick named `nm`:
`matchups[nm].ally.confidence_adjusted_delta`, defaulting to 0. -/
def allyDeltaOf (hd : HeroData) (nm : String) : ℚ :=
  (((hd.matchups.bind fun mu => mu nm).bind MatchupRecord.ally).bind
    StatBlock.confidence_adjusted_delta).getD 0

/-- One enemy pick of step 3 of `calculateHeroScore` (app.js:2001-2020). -/
def enemyStep (hd : HeroData) (mu : String → Option MatchupRecord)
    (acc : ℚ × List Tag) (eh : Hero) : Except Unit (ℚ × List Tag) :=
  match ((mu eh.name).bind MatchupRecord.enemy).bind
      StatBlock.confidence_adjusted_delta with
  | some d =>
    if 3 ≤ jsAbs d then
      match globalWinRate hd with
      | .error e => .error e
      | .ok gw =>
        .ok (acc.1 + d,
          acc.2 ++ [⟨if 0 < d then TagKind.counter else TagKind.weakness,
            eh.name, d, some (gw + d)⟩])
    else .ok (acc.1 + d, acc.2)
  | none => .ok acc

/-- The `forEach` of step 3/4: fold a step over the picks, propagating a
thrown exception. -/
def matchupFold (step : ℚ × List Tag → Hero → Except Unit (ℚ × List Tag)) :
    ℚ × List Tag → List Hero → Except Unit (ℚ × List Tag)
  | acc, [] => .ok acc
  | acc, h :: rest =>
    match step acc h with
    | .error e => .error e
    | .ok acc2 => matchupFold step acc2 rest

/-- Step 3 of `calculateHeroScore`: sum the recorded `enemy` matchup deltas
over the enemy picks, tagging each delta of magnitude at least 3. -/
def enemyComponent (hd : HeroData) (enemyPicks : List Hero) :
    Except Unit (ℚ × List Tag) :=
  match hd.matchups with
  | none => .ok (0, [])
  | some mu => matchupFold (enemyStep hd mu) ((0 : ℚ), ([] : List Tag)) enemyPicks

/-- One own-side pick of step 4 of `calculateHeroScore` (app.js:2025-2044). -/
def allyStep (hd : HeroData) (mu : String → Option MatchupRecord)
    (acc : ℚ × List Tag) (ally : Hero) : Except Unit (ℚ × List Tag) :=
  match ((mu ally.name).bind MatchupRecord.ally).bind
      StatBlock.confidence_adjusted_delta with
  | some d =>
    if 3 ≤ jsAbs d then
      match globalWinRate hd with
      | .error e => .error e
      | .ok gw =>
        .ok (acc.1 + d,
          acc.2 ++ [⟨if 0 < d then TagKind.synergy else TagKind.antisynergy,
            ally.name, d, some (gw + d)⟩])
    else .ok (acc.1 + d, acc.2)
  | none => .ok acc

/-- Step 4 of `calculateHeroScore`: sum the recorded `ally` matchup deltas
over the own-side picks (the scored hero is not excluded by the source),
tagging each delta of magnitude at least 3. -/
def allyComponent (hd : HeroData) (ownPicks : List Hero) :
    Except Unit (ℚ × List Tag) :=
  match hd.matchups with
  | none => .ok (0, [])
  | some mu => matchupFold (allyStep hd mu) ((0 : ℚ), ([] : List Tag)) ownPicks

/-- `player.battletag.split('#')[0]`. -/
def btagShort (p : Player) : String := (p.battletag.splitOn "#").headD ""

/-- One bucket of the player-tag scan of app.js:2072-2082: keep the win rate
farthest from 50 among qualifying (≥ 25 games) entries. -/
def bucketScan (heroName : String) (p : Player) (acc : Option String × ℚ)
    (bucket : Option (String → Option PlayerHeroStats)) : Option String × ℚ :=
  match bucket with
  | none => acc
  | some tbl =>
    match tbl heroName with
    | none => acc
    | some st =>
      if 25 ≤ st.games_played then
        let wr := wrOr50 st.win_rate
        if jsAbs (acc.2 - 50) < jsAbs (wr - 50) then (some (btagShort p), wr)
        else acc
      else acc

/-- One player of the player-tag scan (app.js:2059-2083). -/
def tagScanStep (assignments : List (Option ℕ)) (picks : List (Option Hero))
    (heroName : String) (acc : Option String × ℚ) (ip : ℕ × Option Player) :
    Option String × ℚ :=
  match ip.2 with
  | none => acc
  | some p =>
    if isAssignedToHero assignments picks ip.1 then acc
    else bucketScan heroName p (bucketScan heroName p acc p.qm) p.sl

/-- The player-tag scan of app.js:2053-2083: find which unassigned player has
the qualifying win rate farthest from 50 on this hero. -/
def playerTagScan (players : List (Option Player))
    (assignments : List (Option ℕ)) (picks : List (Option Hero))
    (heroName : String) : Option String × ℚ :=
  players.enum.foldl (tagScanStep assignments picks heroName) (none, 50)

/-- Step 5's tag (app.js:2050-2092): emitted when the player delta is
non-zero with magnitude at least 1 and the scan names a player. -/
def playerTags (players : List (Option Player)) (assignments : List (Option ℕ))
    (picks : List (Option Hero)) (heroName : String) : List Tag :=
  let playerDelta := getPlayerWinRateDelta players assignments picks heroName
  if playerDelta = 0 then []
  else if 1 ≤ jsAbs playerDelta then
    match playerTagScan players assignments picks heroName with
    | (some nm, _) => [⟨TagKind.player, nm, playerDelta, none⟩]
    | (none, _) => []
  else []

/-- `calculateHeroScore(heroName, team)` (app.js:1949): the five-component
win-rate-delta breakdown with explanation tags. `.error ()` models the
`TypeError` thrown when a tag branch reads `global.win_rate` of a record
with no `global` block. -/
def calculateHeroScore (ctx : Ctx) (own enemySide : TeamState)
    (heroName : String) : Except Unit ScoreResult :=
  match ctx.heroesData heroName with
  | none => .ok ⟨0, none, [], 50, none⟩
  | some hd =>
    match mapComponent ctx hd with
    | .error e => .error e
    | .ok mc =>
      match enemyComponent hd (enemySide.picks.filterMap id) with
      | .error e => .error e
      | .ok ec =>
        match allyComponent hd (own.picks.filterMap id) with
        | .error e => .error e
        | .ok ac =>
          let globalDelta :=
            (hd.global.bind StatBlock.confidence_adjusted_delta).getD 0
          let playerDelta :=
            getPlayerWinRateDelta own.players own.assignments own.picks heroName
          let pTags :=
            playerTags own.players own.assignments own.picks heroName
          let b : Breakdown := ⟨globalDelta, mc.1, ec.1, ac.1, playerDelta⟩
          let total :=
            b.global + b.map + b.vsEnemy + b.withAllies + b.playerDelta
          let baseWinRate : ℚ :=
            match hd.global with
            | some g => wrOr50 g.win_rate
            | none => 50
          .ok ⟨total, some b, mc.2 ++ ec.2 ++ ac.2 ++ pTags, 50 + total,
            some baseWinRate⟩

/-- The signal guard of `getRecommendations` (app.js:2117-2123). -/
def hasSignal (ctx : Ctx) (own enemySide : TeamState) : Bool :=
  ctx.selectedMap.isSome || own.picks.any Option.isSome
    || enemySide.picks.any Option.isSome

/-- The slugs of every hero in a ban or pick slot on either side
(app.js:2126-2134). -/
def unavailableSlugs (own enemySide : TeamState) : List String :=
  ((own.bans ++ own.picks ++ enemySide.bans ++ enemySide.picks).filterMap id).map
    Hero.slug

/-- The role-filter skip of app.js:2141: a hero with a truthy `new_role` not
in the non-empty selected set is skipped. -/
def roleFiltered (roles : List String) (h : Hero) : Bool :=
  !roles.isEmpty &&
    (match h.new_role with
      | some r => (r != "") && !(roles.contains r)
      | none => false)

/-- A ranked recommendation entry. -/
structure Recommendation where
  hero : Hero
  score : ScoreResult
deriving DecidableEq

/-- The `hasScore` test of app.js:2147: some breakdown component non-zero
(`Object.values({}).some(...)` is false for the unknown-hero `{}`). -/
def keepScore (s : ScoreResult) : Bool :=
  match s.breakdown with
  | none => false
  | some b =>
    !(decide (b.global = 0) && decide (b.map = 0) && decide (b.vsEnemy = 0)
      && decide (b.withAllies = 0) && decide (b.playerDelta = 0))

/-- One registry hero of the candidate pass of `getRecommendations`
(app.js:2138-2155). -/
def recStep (ctx : Ctx) (roles : List String) (own enemySide : TeamState)
    (acc : List Recommendation) (h : Hero) : Except Unit (List Recommendation) :=
  if (unavailableSlugs own enemySide).contains h.slug then .ok acc
  else if roleFiltered roles h then .ok acc
  else
    match calculateHeroScore ctx own enemySide h.name with
    | .error e => .error e
    | .ok s => .ok (if keepScore s then acc ++ [⟨h, s⟩] else acc)

/-- The `forEach` of the candidate pass, propagating a thrown exception. -/
def recFold (ctx : Ctx) (roles : List String) (own enemySide : TeamState) :
    List Recommendation → List Hero → Except Unit (List Recommendation)
  | acc, [] => .ok acc
  | acc, h :: rest =>
    match recStep ctx roles own enemySide acc h with
    | .error e => .error e
    | .ok acc2 => recFold ctx roles own enemySide acc2 rest

/-- The candidate pass of `getRecommendations` (app.js:2136-2155): score every
registry hero that is available and role-permitted, keeping those with some
non-zero breakdown component, in registry order. -/
def recCandidates (ctx : Ctx) (roles : List String) (own enemySide : TeamState) :
    Except Unit (List Recommendation) :=
  recFold ctx roles own enemySide [] ctx.heroes

/-- Insert into a list sorted by descending `expectedWinRate`, before the
first entry with a key not above the inserted one (stable). -/
def insertByEwr (r : Recommendation) : List Recommendation → List Recommendation
  | [] => [r]
  | x :: xs =>
    if x.score.expectedWinRate ≤ r.score.expectedWinRate then r :: x :: xs
    else x :: insertByEwr r xs

/-- The unique stable descending sort by `expectedWinRate`, modelling
app.js:2158's `sort((a, b) => b.expectedWinRate - a.expectedWinRate)`
(`Array.prototype.sort` is stable, so the stable-sorted result is the
behaviour of the source). -/
def sortByEwr : List Recommendation → List Recommendation
  | [] => []
  | x :: xs => insertByEwr x (sortByEwr xs)

/-- `getRecommendations(team)` (app.js:2114): empty without signal, else the
kept candidates sorted by descending expected win rate. -/
def getRecommendations (ctx : Ctx) (roles : List String)
    (own enemySide : TeamState) : Except Unit (List Recommendation) :=
  if hasSignal ctx own enemySide then
    (recCandidates ctx roles own enemySide).map sortByEwr
  else .ok []

/-- `players.filter(p => p && p.data)` of the resolver. -/
def validPlayers (players : List (Option Player)) : List Player :=
  players.filterMap id

/-- `assignments.some(assignedIdx => assignedIdx === playerIndex)`. -/
def taken (a : List (Option ℕ)) (p : ℕ) : Bool :=
  a.any fun x => decide (x = some p)

/-- First pass of `assignHeroesToPlayers` (app.js:1880-1884): start from all
null and copy the stored assignment of every manual-flagged slot whose pick
is occupied. -/
def pass1 (manual : List Bool) (picks : List (Option Hero))
    (cur : List (Option ℕ)) : List (Option ℕ) :=
  (List.range 5).map fun s =>
    if manual.getD s false ∧ (picks.getD s none).isSome then cur.getD s none
    else none

/-- One valid player of the best-available scan (app.js:1893-1905). -/
def bestAvailStep (a : List (Option ℕ)) (heroName : String)
    (best : ℚ × Option ℕ) (ip : ℕ × Player) : ℚ × Option ℕ :=
  if taken a ip.1 then best
  else
    let d := getPlayerHeroWinRateDelta ip.2 heroName
    if best.1 < d then (d, some ip.1) else best

/-- The best-available scan of app.js:1890-1905: fold over the valid players,
keeping the first strict improvement of the delta over the initial -999. -/
def bestAvailablePlayer (vp : List Player) (a : List (Option ℕ))
    (heroName : String) : ℚ × Option ℕ :=
  vp.enum.foldl (bestAvailStep a heroName) (-999, none)

/-- `validPlayers.findIndex((_, idx) => !assignments.some(... === idx))`. -/
def firstAvailableIdx (n : ℕ) (a : List (Option ℕ)) : Option ℕ :=
  (List.range n).find? fun i => !taken a i

/-- One slot of the second pass of `assignHeroesToPlayers` (app.js:1887-1920):
an occupied, still-unassigned pick slot takes the best available player, or
the first available one when no delta beat -999. -/
def pass2Step (vp : List Player) (picks : List (Option Hero))
    (a : List (Option ℕ)) (s : ℕ) : List (Option ℕ) :=
  match picks.getD s none with
  | none => a
  | some h =>
    if (a.getD s none).isSome then a
    else
      let best := bestAvailablePlayer vp a h.name
      if -999 < best.1 then
        match best.2 with
        | some i => a.set s (some i)
        | none => a
      else
        match firstAvailableIdx vp.length a with
        | some i => a.set s (some i)
        | none => a

/-- Second pass of `assignHeroesToPlayers`: the slots in order. -/
def pass2 (vp : List Player) (picks : List (Option Hero))
    (a : List (Option ℕ)) : List (Option ℕ) :=
  (List.range 5).foldl (pass2Step vp picks) a

/-- One slot of the third pass of `assignHeroesToPlayers` (app.js:1923-1936):
a still-null slot below the valid-player count takes the first unassigned
player, falling back to its own index when every player is assigned. -/
def pass3Step (n : ℕ) (a : List (Option ℕ)) (s : ℕ) : List (Option ℕ) :=
  if (a.getD s none).isNone ∧ s < n then
    match firstAvailableIdx n a with
    | some i => a.set s (some i)
    | none => a.set s (some s)
  else a

/-- Third pass of `assignHeroesToPlayers`: the slots in order. -/
def pass3 (n : ℕ) (a : List (Option ℕ)) : List (Option ℕ) :=
  (List.range 5).foldl (pass3Step n) a

/-- `assignHeroesToPlayers(team)` (app.js:1863-1940): clear everything when no
valid player is present, else run the three passes and store the result. -/
def assignHeroesToPlayers (st : TeamState) : TeamState :=
  let vp := validPlayers st.players
  if vp.isEmpty then
    { st with assignments := List.replicate 5 none,
              manualAssignments := List.replicate 5 false }
  else
    let a1 := pass1 st.manualAssignments st.picks st.assignments
    let a2 := pass2 vp st.picks a1
    let a3 := pass3 vp.length a2
    { st with assignments := a3 }

/-! ### Vocabulary for the properties under scrutiny -/

/-- No two slots of an assignment array reference the same player index:
the spec's swap invariant for the resolver. -/
def InjAssign (a : List (Option ℕ)) : Prop :=
  ∀ i j, i < 5 → j < 5 → i ≠ j →
    ∀ v, a.getD i none = some v → a.getD j none = some v → False

/-- The occupied pick slots come before every empty one (the shape produced
by filling picks in slot order). -/
def FrontLoadedPicks (picks : List (Option Hero)) : Prop :=
  ∀ i j, i < j → j < 5 → picks.getD i none = none → picks.getD j none = none

/-- Codepoint comparison of id strings, used to state the spec's
"ties broken by hero id" ordering. -/
def dataLtB : List Char → List Char → Bool
  | _, [] => false
  | [], _ :: _ => true
  | a :: as, b :: bs => if a < b then true else if b < a then false else dataLtB as bs

/-- Lexicographic codepoint order on hero ids. -/
def idLtB (x y : String) : Bool := dataLtB x.data y.data

/-- The deltas, in player order, of the players `getPlayerWinRateDelta`
actually considers: present and not assigned to a picked slot. -/
def availableDeltas (players : List (Option Player))
    (assignments : List (Option ℕ)) (picks : List (Option Hero))
    (heroName : String) : List ℚ :=
  players.enum.filterMap fun ip =>
    match ip.2 with
    | none => none
    | some p =>
      if isAssignedToHero assignments picks ip.1 then none
      else some (getPlayerHeroWinRateDelta p heroName)

/-- The largest magnitude in a list of deltas (0 for the empty list). -/
def maxAbs (l : List ℚ) : ℚ := l.foldr (fun d m => max |d| m) 0

/-- Reading of §4.2 of the spec: the qualifying (≥ 25 games) entry of one
game-type bucket, if any. -/
def qualifyingEntry (bucket : Option (String → Option PlayerHeroStats))
    (heroName : String) : Option PlayerHeroStats :=
  match bucket with
  | none => none
  | some tbl =>
    match tbl heroName with
    | none => none
    | some st => if 25 ≤ st.games_played then some st else none

/-- The total of the recorded as-ally matchup deltas over a list of picks:
the pure-sum reading of step 4 of the scorer. -/
def allySum (hd : HeroData) (l : List Hero) : ℚ :=
  (l.map fun ally => allyDeltaOf hd ally.name).sum

/-! ### Concrete fixtures -/

/-- A team with no bans, picks, assignments or players. -/
def emptyTeam : TeamState :=
  { bans := [none, none, none]
    picks := [none, none, none, none, none]
    assignments := [none, none, none, none, none]
    manualAssignments := [false, false, false, false, false]
    players := [] }

/-- A present player whose profile tables are empty. -/
def blankPlayer (tag : String) : Player := ⟨tag, some (fun _ => none), none⟩

/-- A hero whose name and slug coincide. -/
def mkHero (nm : String) : Hero := ⟨nm, nm, none⟩

/-- C1: a catalog record with no `global` block but a +3 delta on map
`MapA`. -/
def hdNoGlobal : HeroData :=
  { global := none
    maps := some fun n => if n = "MapA" then some ⟨some 3, none⟩ else none
    matchups := none }

/-- C1: context selecting `MapA` with hero `X` carrying `hdNoGlobal`. -/
def ctxNoGlobal : Ctx :=
  { heroesData := fun n => if n = "X" then some hdNoGlobal else none
    heroes := [⟨"X", "x", none⟩]
    maps := [⟨"mapa", "MapA"⟩]
    selectedMap := some "mapa" }

/-- C2: two blank players, picks in slots 0 and 2, no manual flags. -/
def stGapPicks : TeamState :=
  { bans := [none, none, none]
    picks := [some (mkHero "H0"), none, some (mkHero "H1"), none, none]
    assignments := [none, none, none, none, none]
    manualAssignments := [false, false, false, false, false]
    players := [some (blankPlayer "pa#1"), some (blankPlayer "pb#2")] }

/-- C4: a catalog record with only a +1 global delta. -/
def hdPlusOne : HeroData :=
  { global := some ⟨some 1, some 50⟩, maps := none, matchups := none }

/-- C4: hero registry listing `B` before `A`; the selected map slug matches
no registry map, so both heroes receive the identical score. -/
def ctxTie : Ctx :=
  { heroesData := fun n => if n = "B" ∨ n = "A" then some hdPlusOne else none
    heroes := [⟨"B", "b", none⟩, ⟨"A", "a", none⟩]
    maps := []
    selectedMap := some "m" }

/-- C4: the score both tie heroes receive. -/
def scoreTie : ScoreResult := ⟨1, some ⟨1, 0, 0, 0, 0⟩, [], 51, some 50⟩

/-- C3/C10: a team that has picked hero `B` of `ctxTie`. -/
def stPickB : TeamState :=
  { emptyTeam with picks := [some ⟨"B", "b", none⟩, none, none, none, none] }

/-- C3/C10: the single recommendation left once `B` is picked. -/
def recTieA : Recommendation := ⟨⟨"A", "a", none⟩, scoreTie⟩

/-- C4: the tie recommendation for hero `B`. -/
def recTieB : Recommendation := ⟨⟨"B", "b", none⟩, scoreTie⟩

/-- C5: a player with 30 games on hero `H` at a recorded 0% win rate. -/
def playerZeroWr : Player :=
  ⟨"x#1", some (fun n => if n = "H" then some ⟨30, some 0⟩ else none), none⟩

/-- C7: hero `A` has a recorded +2 as-ally matchup with itself. -/
def hdSelfAlly : HeroData :=
  { global := some ⟨some 0, some 50⟩
    maps := none
    matchups := some fun n =>
      if n = "A" then some ⟨none, some ⟨some 2, none⟩⟩ else none }

/-- C7: catalog with only hero `A`. -/
def ctxSelfAlly : Ctx :=
  { heroesData := fun n => if n = "A" then some hdSelfAlly else none
    heroes := [⟨"A", "a", none⟩]
    maps := []
    selectedMap := none }

/-- C7: hero `A` is picked on the side being scored. -/
def stSelfAlly : TeamState :=
  { emptyTeam with picks := [some ⟨"A", "a", none⟩, none, none, none, none] }

/-- C8: a catalog record with only a +5 global delta. -/
def hdGlobalFive : HeroData :=
  { global := some ⟨some 5, some 50⟩, maps := none, matchups := none }

/-- C8: catalog with only hero `G`; a pick gives the ranker signal. -/
def ctxGlobalFive : Ctx :=
  { heroesData := fun n => if n = "G" then some hdGlobalFive else none
    heroes := [⟨"G", "g", none⟩]
    maps := []
    selectedMap := none }

/-- C9: manual slot 1 has a pick but a null stored assignment; manual slots
3 and 4 pin players 0 and 2, leaving only player 1 for the slot-0 pick. -/
def stManualNull : TeamState :=
  { bans := [none, none, none]
    picks := [some (mkHero "H0"), some (mkHero "Ht"), none,
      some (mkHero "H3"), some (mkHero "H4")]
    assignments := [none, none, none, some 0, some 2]
    manualAssignments := [false, true, false, true, true]
    players := [some (blankPlayer "pa#1"), some (blankPlayer "pb#2"),
      some (blankPlayer "pc#3")] }


/-- The display name of the selected map, read off the `find?` chain of
`mapComponent`; empty when no map is selected or found. -/
def selectedMapName (ctx : Ctx) : String :=
  ((ctx.selectedMap.bind fun sel =>
    ctx.maps.find? fun m => m.slug == sel).map MapInfo.name).getD ""


/-- The counter/weakness tag step 3 pushes for an enemy pick. -/
def enemyTagOf (hd : HeroData) (gw : ℚ) (eh : Hero) : Tag :=
  ⟨if 0 < enemyDeltaOf hd eh.name then TagKind.counter else TagKind.weakness,
    eh.name, enemyDeltaOf hd eh.name, some (gw + enemyDeltaOf hd eh.name)⟩


/-- The synergy/antisynergy tag step 4 pushes for an own-side pick. -/
def allyTagOf (hd : HeroData) (gw : ℚ) (ah : Hero) : Tag :=
  ⟨if 0 < allyDeltaOf hd ah.name then TagKind.synergy else TagKind.antisynergy,
    ah.name, allyDeltaOf hd ah.name, some (gw + allyDeltaOf hd ah.name)⟩


/-- C8 witness: matchup table with a +4 enemy delta on `E` and a -3 ally
delta on `B`. -/
def muTagFx : String → Option MatchupRecord := fun n =>
  if n = "E" then some ⟨some ⟨some 4, none⟩, none⟩
  else if n = "B" then some ⟨none, some ⟨some (-3), none⟩⟩
  else none


/-- C8 witness: +1 global delta, 55% global win rate, `muTagFx` matchups. -/
def hdTagFx : HeroData :=
  { global := some ⟨some 1, some 55⟩, maps := none, matchups := some muTagFx }


/-- C8 witness: catalog with only hero `X`. -/
def ctxTagFx : Ctx :=
  { heroesData := fun n => if n = "X" then some hdTagFx else none
    heroes := [⟨"X", "x", none⟩]
    maps := []
    selectedMap := none }


/-- C8 witness: own side picked `B`. -/
def stTagOwn : TeamState :=
  { emptyTeam with picks := [some ⟨"B", "b", none⟩, none, none, none, none] }


/-- C8 witness: enemy side picked `E`. -/
def stTagEnemy : TeamState :=
  { emptyTeam with picks := [some ⟨"E", "e", none⟩, none, none, none, none] }


/-- C8 witness: the expected score of `X`. -/
def rTagFx : ScoreResult :=
  ⟨2, some ⟨1, 0, 4, -3, 0⟩,
    [⟨TagKind.counter, "E", 4, some 59⟩,
      ⟨TagKind.antisynergy, "B", -3, some 52⟩],
    52, some 55⟩


/-- Invariant carried across the resolver passes: the array has five
slots, exactly the first `c` thresholds are filled, distinct slots hold
distinct player indices, and every stored index is a valid player. -/
def SlotInv (n c : ℕ) (a : List (Option ℕ)) : Prop :=
  a.length = 5 ∧ c ≤ 5 ∧ c ≤ n
    ∧ InjAssign a
    ∧ (∀ i v, a.getD i none = some v → v < n)
    ∧ (∀ t, t < 5 → ((a.getD t none).isSome ↔ t < c))

/-- C2 witness state: two valid players, nothing picked, no manual flags. -/
def stC2W : TeamState :=
  { emptyTeam with
      players := [some (blankPlayer "A"), some (blankPlayer "B"),
        none, none, none] }


theorem getPlayerHeroWinRateDelta_eq (p : Player) (nm : String) :
    getPlayerHeroWinRateDelta p nm =
      match qualifyingEntry p.qm nm, qualifyingEntry p.sl nm with
      | none, none => 0
      | some q, none => cap5 (wrOr50 q.win_rate - 50)
      | none, some r => cap5 (wrOr50 r.win_rate - 50)
      | some q, some r =>
        if r.games_played ≤ q.games_played then cap5 (wrOr50 q.win_rate - 50)
        else cap5 (wrOr50 r.win_rate - 50) := by
  rcases p with ⟨bt, qm, sl⟩
  simp only [getPlayerHeroWinRateDelta, qualifyingEntry, List.foldl]
  cases qm with
  | none =>
    cases sl with
    | none => rfl
    | some tbl =>
      simp only [deltaBucketStep]
      cases htbl : tbl nm with
      | none => rfl
      | some st =>
        by_cases hg : 25 ≤ st.games_played
        · have h0 : (0 : ℕ) < st.games_played := by omega
          simp [hg, h0]
        · simp [hg]
  | some tblq =>
    cases hq : tblq nm with
    | none =>
      simp only [deltaBucketStep, hq]
      cases sl with
      | none => rfl
      | some tbl =>
        cases htbl : tbl nm with
        | none => simp [htbl]
        | some st =>
          by_cases hg : 25 ≤ st.games_played
          · have h0 : (0 : ℕ) < st.games_played := by omega
            simp [htbl, hg, h0]
          · simp [htbl, hg]
    | some stq =>
      by_cases hgq : 25 ≤ stq.games_played
      · have h0q : (0 : ℕ) < stq.games_played := by omega
        cases sl with
        | none => simp [deltaBucketStep, hq, hgq, h0q]
        | some tbl =>
          cases htbl : tbl nm with
          | none => simp [deltaBucketStep, hq, htbl, hgq, h0q]
          | some st =>
            by_cases hg : 25 ≤ st.games_played
            · by_cases hcmp : stq.games_played < st.games_played
              · have : ¬ st.games_played ≤ stq.games_played := by omega
                simp [deltaBucketStep, hq, htbl, hgq, h0q, hg, hcmp, this]
              · have : st.games_played ≤ stq.games_played := by omega
                simp [deltaBucketStep, hq, htbl, hgq, h0q, hg, hcmp, this]
            · simp [deltaBucketStep, hq, htbl, hgq, h0q, hg]
      · cases sl with
        | none => simp [deltaBucketStep, hq, hgq]
        | some tbl =>
          cases htbl : tbl nm with
          | none => simp [deltaBucketStep, hq, htbl, hgq]
          | some st =>
            by_cases hg : 25 ≤ st.games_played
            · have h0 : (0 : ℕ) < st.games_played := by omega
              simp [deltaBucketStep, hq, htbl, hgq, hg, h0]
            · simp [deltaBucketStep, hq, htbl, hgq, hg]

/-! ### Numeric bridge lemmas -/

theorem jsAbs_eq_abs (a : ℚ) : jsAbs a = |a| := by
  by_cases h : a < 0
  · simp [jsAbs, h, abs_of_neg h]
  · simp [jsAbs, h, abs_of_nonneg (le_of_not_lt h)]

theorem cap5_le_five (d : ℚ) : cap5 d ≤ 5 := by
  simp only [cap5, jsMax, jsMin]
  split_ifs <;> linarith

theorem neg_five_le_cap5 (d : ℚ) : -5 ≤ cap5 d := by
  simp only [cap5, jsMax, jsMin]
  split_ifs <;> linarith

theorem getPlayerHeroWinRateDelta_bounds (p : Player) (nm : String) :
    -5 ≤ getPlayerHeroWinRateDelta p nm ∧ getPlayerHeroWinRateDelta p nm ≤ 5 := by
  rw [getPlayerHeroWinRateDelta_eq]
  cases qualifyingEntry p.qm nm with
  | none =>
    cases qualifyingEntry p.sl nm with
    | none => norm_num
    | some r => exact ⟨neg_five_le_cap5 _, cap5_le_five _⟩
  | some q =>
    cases qualifyingEntry p.sl nm with
    | none => exact ⟨neg_five_le_cap5 _, cap5_le_five _⟩
    | some r =>
      by_cases h : r.games_played ≤ q.games_played <;>
        simp [h, neg_five_le_cap5, cap5_le_five]

/-! ### Inversion of the scorer -/

theorem calculateHeroScore_ok_inv {ctx : Ctx} {own enemySide : TeamState}
    {nm : String} {r : ScoreResult} {b : Breakdown}
    (hok : calculateHeroScore ctx own enemySide nm = .ok r)
    (hb : r.breakdown = some b) :
    ∃ hd mc ec ac, ctx.heroesData nm = some hd
      ∧ mapComponent ctx hd = .ok mc
      ∧ enemyComponent hd (enemySide.picks.filterMap id) = .ok ec
      ∧ allyComponent hd (own.picks.filterMap id) = .ok ac
      ∧ b = ⟨(hd.global.bind StatBlock.confidence_adjusted_delta).getD 0,
          mc.1, ec.1, ac.1,
          getPlayerWinRateDelta own.players own.assignments own.picks nm⟩
      ∧ r.tags = mc.2 ++ ec.2 ++ ac.2
          ++ playerTags own.players own.assignments own.picks nm := by
  unfold calculateHeroScore at hok
  split at hok
  next hhd =>
    simp only [Except.ok.injEq] at hok
    rw [← hok] at hb
    simp at hb
  next hd hhd =>
    split at hok
    next e hmc => exact Except.noConfusion hok
    next mc hmc =>
      split at hok
      next e hec => exact Except.noConfusion hok
      next ec hec =>
        split at hok
        next e hac => exact Except.noConfusion hok
        next ac hac =>
          simp only [Except.ok.injEq] at hok
          subst hok
          simp only [ScoreResult.breakdown, Option.some.injEq] at hb
          exact ⟨hd, mc, ec, ac, hhd, hmc, hec, hac, hb.symm, rfl⟩

/-! ### The maximum-magnitude fold -/

theorem maxAbs_nonneg (l : List ℚ) : 0 ≤ maxAbs l := by
  induction l with
  | nil => simp [maxAbs]
  | cons d t ih => exact le_trans ih (le_max_right _ _)

theorem maxAbs_cons (d : ℚ) (l : List ℚ) : maxAbs (d :: l) = max |d| (maxAbs l) :=
  rfl

theorem bestDelta_foldl_spec (assignments : List (Option ℕ))
    (picks : List (Option Hero)) (nm : String) (l : List (ℕ × Option Player)) :
    ∀ acc : ℚ,
      |l.foldl (bestDeltaStep assignments picks nm) acc|
          = max |acc| (maxAbs (l.filterMap fun ip =>
              match ip.2 with
              | none => none
              | some p =>
                if isAssignedToHero assignments picks ip.1 then none
                else some (getPlayerHeroWinRateDelta p nm)))
        ∧ (l.foldl (bestDeltaStep assignments picks nm) acc = acc
            ∨ l.foldl (bestDeltaStep assignments picks nm) acc
                ∈ l.filterMap fun ip =>
                  match ip.2 with
                  | none => none
                  | some p =>
                    if isAssignedToHero assignments picks ip.1 then none
                    else some (getPlayerHeroWinRateDelta p nm)) := by
  induction l with
  | nil =>
    intro acc
    simp [maxAbs, abs_nonneg]
  | cons ip t ih =>
    intro acc
    cases hip : ip.2 with
    | none =>
      simpa [bestDeltaStep, hip] using ih acc
    | some p =>
      by_cases hta : isAssignedToHero assignments picks ip.1 = true
      · simpa [bestDeltaStep, hip, hta] using ih acc
      · have hfm : ((ip :: t).filterMap fun ipx =>
            match ipx.2 with
            | none => none
            | some px =>
              if isAssignedToHero assignments picks ipx.1 then none
              else some (getPlayerHeroWinRateDelta px nm))
            = getPlayerHeroWinRateDelta p nm :: (t.filterMap fun ipx =>
                match ipx.2 with
                | none => none
                | some px =>
                  if isAssignedToHero assignments picks ipx.1 then none
                  else some (getPlayerHeroWinRateDelta px nm)) := by
          simp [hip, hta]
        have hstep : bestDeltaStep assignments picks nm acc ip
            = (if |acc| < |getPlayerHeroWinRateDelta p nm| then
                getPlayerHeroWinRateDelta p nm else acc) := by
          simp [bestDeltaStep, hip, hta, jsAbs_eq_abs]
        by_cases hlt : |acc| < |getPlayerHeroWinRateDelta p nm|
        · have h1 := ih (getPlayerHeroWinRateDelta p nm)
          constructor
          · rw [List.foldl_cons, hstep, if_pos hlt, h1.1, hfm, maxAbs_cons,
              ← max_assoc, max_eq_right (le_of_lt hlt)]
          · rw [List.foldl_cons, hstep, if_pos hlt, hfm]
            rcases h1.2 with h | h
            · exact Or.inr (by rw [h]; exact List.mem_cons_self _ _)
            · exact Or.inr (List.mem_cons_of_mem _ h)
        · have h1 := ih acc
          constructor
          · rw [List.foldl_cons, hstep, if_neg hlt, h1.1, hfm, maxAbs_cons,
              ← max_assoc, max_eq_left (le_of_not_lt hlt)]
          · rw [List.foldl_cons, hstep, if_neg hlt, hfm]
            rcases h1.2 with h | h
            · exact Or.inl h
            · exact Or.inr (List.mem_cons_of_mem _ h)

/-! ### C5: the per-player per-hero delta, amended -/

/-- C5 (amended): the per-player per-hero delta is 0 when no game-type bucket
has at least 25 games on the hero; otherwise it is the win-rate-minus-50
value of the qualifying bucket with the most games (Quick Match preferred on
ties), clamped to [-5, 5] — where a missing or recorded-zero win rate counts
as 50 (so a 0% win rate contributes 0, not -5). -/
theorem c5_delta_clamped_with_zero_as_fifty (p : Player) (nm : String) :
    getPlayerHeroWinRateDelta p nm =
      match qualifyingEntry p.qm nm, qualifyingEntry p.sl nm with
      | none, none => 0
      | some q, none => cap5 (wrOr50 q.win_rate - 50)
      | none, some r => cap5 (wrOr50 r.win_rate - 50)
      | some q, some r =>
        if r.games_played ≤ q.games_played then cap5 (wrOr50 q.win_rate - 50)
        else cap5 (wrOr50 r.win_rate - 50) :=
  getPlayerHeroWinRateDelta_eq p nm

/-! ### C6: the playerDelta component -/

/-- C6: in any successfully computed breakdown, `playerDelta` is exactly
`getPlayerWinRateDelta`, whose magnitude is the maximum magnitude of the
deltas of the available players — present players not referenced by an
assignment slot whose pick is occupied — and whose value is 0 or one of
those deltas. -/
theorem c6_player_delta_max_over_unassigned {ctx : Ctx}
    {own enemySide : TeamState} {nm : String} {r : ScoreResult} {b : Breakdown}
    (hok : calculateHeroScore ctx own enemySide nm = .ok r)
    (hb : r.breakdown = some b) :
    b.playerDelta
        = getPlayerWinRateDelta own.players own.assignments own.picks nm
      ∧ |b.playerDelta|
          = maxAbs (availableDeltas own.players own.assignments own.picks nm)
      ∧ (b.playerDelta = 0
          ∨ b.playerDelta
              ∈ availableDeltas own.players own.assignments own.picks nm) := by
  obtain ⟨hd, mc, ec, ac, hhd, hmc, hec, hac, hb2, htags⟩ :=
    calculateHeroScore_ok_inv hok hb
  subst hb2
  have h := bestDelta_foldl_spec own.assignments own.picks nm own.players.enum 0
  refine ⟨rfl, ?_, ?_⟩
  · have h1 := h.1
    rw [abs_zero, max_eq_right (maxAbs_nonneg _)] at h1
    exact h1
  · exact h.2

/-- Witness for C6 at a concrete input: hero `G` of `ctxGlobalFive` scored
on an empty draft. -/
theorem c6_player_delta_witness :
    (⟨5, 0, 0, 0, 0⟩ : Breakdown).playerDelta
        = getPlayerWinRateDelta emptyTeam.players emptyTeam.assignments
            emptyTeam.picks "G"
      ∧ |(⟨5, 0, 0, 0, 0⟩ : Breakdown).playerDelta|
          = maxAbs (availableDeltas emptyTeam.players emptyTeam.assignments
              emptyTeam.picks "G")
      ∧ ((⟨5, 0, 0, 0, 0⟩ : Breakdown).playerDelta = 0
          ∨ (⟨5, 0, 0, 0, 0⟩ : Breakdown).playerDelta
              ∈ availableDeltas emptyTeam.players emptyTeam.assignments
                  emptyTeam.picks "G") :=
  @c6_player_delta_max_over_unassigned ctxGlobalFive emptyTeam emptyTeam "G"
    ⟨5, some ⟨5, 0, 0, 0, 0⟩, [], 55, some 50⟩ ⟨5, 0, 0, 0, 0⟩
    (by norm_num [calculateHeroScore, ctxGlobalFive, emptyTeam, hdGlobalFive,
      mapComponent, enemyComponent, allyComponent, matchupFold, globalWinRate,
      wrOr50, getPlayerWinRateDelta, bestDeltaStep, playerTags, playerTagScan,
      tagScanStep, List.enum])
    rfl

/-! ### Membership through the ranker -/

theorem mem_insertByEwr {a r : Recommendation} {l : List Recommendation} :
    a ∈ insertByEwr r l ↔ a = r ∨ a ∈ l := by
  induction l with
  | nil => simp [insertByEwr]
  | cons x xs ih =>
    simp only [insertByEwr]
    split_ifs with h
    · simp [List.mem_cons]
    · simp only [List.mem_cons, ih]
      tauto

theorem mem_sortByEwr {a : Recommendation} {l : List Recommendation} :
    a ∈ sortByEwr l ↔ a ∈ l := by
  induction l with
  | nil => simp [sortByEwr]
  | cons x xs ih => simp [sortByEwr, mem_insertByEwr, ih]

theorem recFold_mem (ctx : Ctx) (roles : List String) (own enemySide : TeamState)
    (hs : List Hero) :
    ∀ (acc out : List Recommendation),
      recFold ctx roles own enemySide acc hs = .ok out → ∀ r ∈ out,
        r ∈ acc
          ∨ ((unavailableSlugs own enemySide).contains r.hero.slug = false
              ∧ roleFiltered roles r.hero = false
              ∧ calculateHeroScore ctx own enemySide r.hero.name = .ok r.score
              ∧ keepScore r.score = true) := by
  induction hs with
  | nil =>
    intro acc out h r hr
    simp only [recFold, Except.ok.injEq] at h
    subst h
    exact Or.inl hr
  | cons h0 t ih =>
    intro acc out hfold r hr
    rw [recFold] at hfold
    cases hstep : recStep ctx roles own enemySide acc h0 with
    | error e => rw [hstep] at hfold; exact Except.noConfusion hfold
    | ok acc2 =>
      rw [hstep] at hfold
      rcases ih acc2 out hfold r hr with hm | hp
      · unfold recStep at hstep
        split_ifs at hstep with hc hrole
        · simp only [Except.ok.injEq] at hstep
          subst hstep
          exact Or.inl hm
        · simp only [Except.ok.injEq] at hstep
          subst hstep
          exact Or.inl hm
        · cases hsc : calculateHeroScore ctx own enemySide h0.name with
          | error e => rw [hsc] at hstep; exact Except.noConfusion hstep
          | ok sc =>
            rw [hsc] at hstep
            simp only [Except.ok.injEq] at hstep
            by_cases hk : keepScore sc = true
            · rw [if_pos hk] at hstep
              subst hstep
              rcases List.mem_append.mp hm with hm2 | hm2
              · exact Or.inl hm2
              · have hr0 : r = ⟨h0, sc⟩ := by simpa using hm2
                subst hr0
                exact Or.inr ⟨Bool.not_eq_true _ ▸ eq_false_of_ne_true hc,
                  Bool.not_eq_true _ ▸ eq_false_of_ne_true hrole, hsc, hk⟩
            · rw [if_neg hk] at hstep
              subst hstep
              exact Or.inl hm
      · exact Or.inr hp

theorem getRecommendations_ok_inv {ctx : Ctx} {roles : List String}
    {own enemySide : TeamState} {l : List Recommendation}
    (h : getRecommendations ctx roles own enemySide = .ok l) :
    (hasSignal ctx own enemySide = false ∧ l = [])
      ∨ (hasSignal ctx own enemySide = true
          ∧ ∃ c, recCandidates ctx roles own enemySide = .ok c
              ∧ l = sortByEwr c) := by
  unfold getRecommendations at h
  by_cases hsig : hasSignal ctx own enemySide = true
  · rw [if_pos hsig] at h
    cases hc : recCandidates ctx roles own enemySide with
    | error e => rw [hc] at h; exact Except.noConfusion h
    | ok c =>
      rw [hc] at h
      simp only [Except.map, Except.ok.injEq] at h
      exact Or.inr ⟨hsig, c, rfl, h.symm⟩
  · rw [if_neg hsig] at h
    simp only [Except.ok.injEq] at h
    exact Or.inl ⟨eq_false_of_ne_true hsig, h.symm⟩

/-! ### C3: banned and picked heroes never recommended -/

/-- C3: a hero occupying any ban or pick slot on either side never appears
(by slug, the identity the code uses) in the recommendation list of either
side. -/
theorem c3_drafted_heroes_excluded (ctx : Ctx) (roles : List String)
    (own enemySide : TeamState) (h : Hero) (l : List Recommendation)
    (hmem : some h ∈ own.bans ++ own.picks ++ enemySide.bans ++ enemySide.picks)
    (hok : getRecommendations ctx roles own enemySide = .ok l) :
    ∀ r ∈ l, r.hero.slug ≠ h.slug := by
  intro r hr heq
  rcases getRecommendations_ok_inv hok with ⟨_, rfl⟩ | ⟨hsig, c, hc, rfl⟩
  · simp at hr
  · have hr2 := mem_sortByEwr.mp hr
    rcases recFold_mem ctx roles own enemySide ctx.heroes [] c hc r hr2 with
      h0 | ⟨hcontains, _⟩
    · simp at h0
    · have hin : (unavailableSlugs own enemySide).contains h.slug = true := by
        unfold unavailableSlugs
        rw [List.contains_eq_any_beq]
        rw [List.any_eq_true]
        refine ⟨h.slug, List.mem_map_of_mem Hero.slug ?_, by simp⟩
        exact List.mem_filterMap.mpr ⟨some h, hmem, rfl⟩
      rw [heq, hin] at hcontains
      exact Bool.noConfusion hcontains

/-! ### C10: all-zero breakdowns are omitted -/

/-- C10: every listed recommendation has a breakdown with some non-zero
component; in particular a hero with no catalog record is never listed, even
when the context carries signal. -/
theorem c10_zero_breakdown_omitted (ctx : Ctx) (roles : List String)
    (own enemySide : TeamState) (l : List Recommendation)
    (hok : getRecommendations ctx roles own enemySide = .ok l) :
    ∀ r ∈ l,
      (∃ b, r.score.breakdown = some b
          ∧ ¬(b.global = 0 ∧ b.map = 0 ∧ b.vsEnemy = 0 ∧ b.withAllies = 0
              ∧ b.playerDelta = 0))
        ∧ ctx.heroesData r.hero.name ≠ none := by
  intro r hr
  rcases getRecommendations_ok_inv hok with ⟨_, rfl⟩ | ⟨hsig, c, hc, rfl⟩
  · simp at hr
  · have hr2 := mem_sortByEwr.mp hr
    rcases recFold_mem ctx roles own enemySide ctx.heroes [] c hc r hr2 with
      h0 | ⟨_, _, hsc, hk⟩
    · simp at h0
    · have hbd : ∃ b, r.score.breakdown = some b
          ∧ ¬(b.global = 0 ∧ b.map = 0 ∧ b.vsEnemy = 0 ∧ b.withAllies = 0
              ∧ b.playerDelta = 0) := by
        unfold keepScore at hk
        cases hbr : r.score.breakdown with
        | none => rw [hbr] at hk; exact Bool.noConfusion hk
        | some b =>
          rw [hbr] at hk
          simp only [Bool.not_eq_eq_eq_not, Bool.not_true, Bool.and_eq_false_imp] at hk
          refine ⟨b, rfl, ?_⟩
          intro ⟨h1, h2, h3, h4, h5⟩
          simp [h1, h2, h3, h4, h5] at hk
      refine ⟨hbd, ?_⟩
      intro hnone
      have : calculateHeroScore ctx own enemySide r.hero.name
          = .ok ⟨0, none, [], 50, none⟩ := by
        unfold calculateHeroScore
        rw [hnone]
      rw [this] at hsc
      simp only [Except.ok.injEq] at hsc
      rcases hbd with ⟨b, hb, _⟩
      rw [← hsc] at hb
      simp at hb

/-- Witness for C3: with hero `B` picked, hero `A` is the only
recommendation and its slug differs from `B`'s. -/
theorem c3_drafted_heroes_excluded_witness : recTieA.hero.slug ≠ "b" :=
  c3_drafted_heroes_excluded ctxTie [] stPickB emptyTeam ⟨"B", "b", none⟩
    [recTieA] (by decide)
    (by norm_num [getRecommendations, hasSignal, ctxTie, emptyTeam, stPickB,
      recTieA, recCandidates, recFold, recStep, unavailableSlugs, roleFiltered,
      keepScore, scoreTie, calculateHeroScore, hdPlusOne, mapComponent,
      enemyComponent, allyComponent, matchupFold, globalWinRate, wrOr50,
      getPlayerWinRateDelta, bestDeltaStep, playerTags, playerTagScan,
      tagScanStep, List.enum, sortByEwr, insertByEwr, Except.map,
      List.contains_cons, List.contains_nil, List.filterMap_cons,
      List.filterMap_nil, show ¬("a" : String) = "b" by decide])
    recTieA (by simp)

/-- Witness for C10: in the same scenario the listed recommendation has a
non-zero breakdown component and a catalog record. -/
theorem c10_zero_breakdown_omitted_witness :
    (∃ b, recTieA.score.breakdown = some b
        ∧ ¬(b.global = 0 ∧ b.map = 0 ∧ b.vsEnemy = 0 ∧ b.withAllies = 0
            ∧ b.playerDelta = 0))
      ∧ ctxTie.heroesData recTieA.hero.name ≠ none :=
  c10_zero_breakdown_omitted ctxTie [] stPickB emptyTeam [recTieA]
    (by norm_num [getRecommendations, hasSignal, ctxTie, emptyTeam, stPickB,
      recTieA, recCandidates, recFold, recStep, unavailableSlugs, roleFiltered,
      keepScore, scoreTie, calculateHeroScore, hdPlusOne, mapComponent,
      enemyComponent, allyComponent, matchupFold, globalWinRate, wrOr50,
      getPlayerWinRateDelta, bestDeltaStep, playerTags, playerTagScan,
      tagScanStep, List.enum, sortByEwr, insertByEwr, Except.map,
      List.contains_cons, List.contains_nil, List.filterMap_cons,
      List.filterMap_nil, show ¬("a" : String) = "b" by decide])
    recTieA (by simp)

/-! ### Sortedness and stability of the ranker -/

theorem pairwise_insertByEwr {r : Recommendation} {l : List Recommendation}
    (h : l.Pairwise
      (fun a b => b.score.expectedWinRate ≤ a.score.expectedWinRate)) :
    (insertByEwr r l).Pairwise
      (fun a b => b.score.expectedWinRate ≤ a.score.expectedWinRate) := by
  induction l with
  | nil => simp [insertByEwr]
  | cons x xs ih =>
    rcases List.pairwise_cons.mp h with ⟨hx, hxs⟩
    simp only [insertByEwr]
    split_ifs with hle
    · refine List.pairwise_cons.mpr ⟨?_, h⟩
      intro y hy
      rcases List.mem_cons.mp hy with rfl | hy2
      · exact hle
      · exact le_trans (hx y hy2) hle
    · refine List.pairwise_cons.mpr ⟨?_, ih hxs⟩
      intro y hy
      rcases mem_insertByEwr.mp hy with rfl | hy2
      · exact le_of_lt (lt_of_not_le hle)
      · exact hx y hy2

theorem pairwise_sortByEwr (l : List Recommendation) :
    (sortByEwr l).Pairwise
      (fun a b => b.score.expectedWinRate ≤ a.score.expectedWinRate) := by
  induction l with
  | nil => simp [sortByEwr]
  | cons x xs ih => exact pairwise_insertByEwr ih

theorem filter_insertByEwr (k : ℚ) (r : Recommendation)
    (l : List Recommendation) :
    (insertByEwr r l).filter (fun x => decide (x.score.expectedWinRate = k))
      = if r.score.expectedWinRate = k then
          r :: l.filter (fun x => decide (x.score.expectedWinRate = k))
        else l.filter (fun x => decide (x.score.expectedWinRate = k)) := by
  induction l with
  | nil =>
    by_cases hr : r.score.expectedWinRate = k
    · rw [if_pos hr]
      simp [insertByEwr, List.filter_cons, List.filter_nil, hr]
    · rw [if_neg hr]
      simp [insertByEwr, List.filter_cons, List.filter_nil, hr]
  | cons x xs ih =>
    simp only [insertByEwr]
    by_cases hr : r.score.expectedWinRate = k
    · rw [if_pos hr]
      by_cases hle : x.score.expectedWinRate ≤ r.score.expectedWinRate
      · rw [if_pos hle]
        simp [List.filter_cons, hr]
      · rw [if_neg hle]
        have hxk : ¬ x.score.expectedWinRate = k := fun hx =>
          hle (by rw [hx, hr])
        simp [List.filter_cons, hxk, ih, hr]
    · rw [if_neg hr]
      by_cases hle : x.score.expectedWinRate ≤ r.score.expectedWinRate
      · rw [if_pos hle]
        simp [List.filter_cons, hr]
      · rw [if_neg hle]
        simp [List.filter_cons, ih, hr]

theorem filter_sortByEwr (k : ℚ) (l : List Recommendation) :
    (sortByEwr l).filter (fun x => decide (x.score.expectedWinRate = k))
      = l.filter (fun x => decide (x.score.expectedWinRate = k)) := by
  induction l with
  | nil => simp [sortByEwr]
  | cons x xs ih =>
    simp only [sortByEwr, filter_insertByEwr, ih, List.filter_cons]
    by_cases hx : x.score.expectedWinRate = k <;> simp [hx]

/-! ### C4: the order of the recommendation list, amended -/

/-- C4 (amended): the recommendation list is sorted by `expectedWinRate`
descending; entries with equal `expectedWinRate` keep the hero-registry
(candidate) order — the stable-sort behaviour of `Array.prototype.sort` —
not hero-id order. The output is still deterministic for a fixed registry. -/
theorem c4_sorted_desc_ties_in_registry_order (ctx : Ctx) (roles : List String)
    (own enemySide : TeamState) (c : List Recommendation)
    (hsig : hasSignal ctx own enemySide = true)
    (hc : recCandidates ctx roles own enemySide = .ok c) :
    getRecommendations ctx roles own enemySide = .ok (sortByEwr c)
      ∧ (sortByEwr c).Pairwise
          (fun a b => b.score.expectedWinRate ≤ a.score.expectedWinRate)
      ∧ ∀ k : ℚ,
          (sortByEwr c).filter (fun x => decide (x.score.expectedWinRate = k))
            = c.filter (fun x => decide (x.score.expectedWinRate = k)) := by
  refine ⟨?_, pairwise_sortByEwr c, fun k => filter_sortByEwr k c⟩
  unfold getRecommendations
  rw [if_pos hsig, hc]
  rfl

/-- Witness for C4 (amended) at the tie scenario of `ctxTie`. -/
theorem c4_sorted_desc_ties_witness :
    getRecommendations ctxTie [] emptyTeam emptyTeam
        = .ok (sortByEwr [recTieB, recTieA])
      ∧ (sortByEwr [recTieB, recTieA]).Pairwise
          (fun a b => b.score.expectedWinRate ≤ a.score.expectedWinRate)
      ∧ ∀ k : ℚ,
          (sortByEwr [recTieB, recTieA]).filter
              (fun x => decide (x.score.expectedWinRate = k))
            = [recTieB, recTieA].filter
                (fun x => decide (x.score.expectedWinRate = k)) :=
  c4_sorted_desc_ties_in_registry_order ctxTie [] emptyTeam emptyTeam
    [recTieB, recTieA] rfl
    (by norm_num [recCandidates, recFold, recStep, ctxTie, emptyTeam,
      unavailableSlugs, roleFiltered, keepScore, scoreTie, recTieA, recTieB,
      calculateHeroScore, hdPlusOne, mapComponent, enemyComponent,
      allyComponent, matchupFold, globalWinRate, wrOr50,
      getPlayerWinRateDelta, bestDeltaStep, playerTags, playerTagScan,
      tagScanStep, List.enum])

/-! ### The ally component as a pure sum -/

theorem sum_map_zero (l : List Hero) : (l.map fun _ => (0 : ℚ)).sum = 0 := by
  induction l with
  | nil => rfl
  | cons a t ih => simp [ih]

theorem allyStep_fst {hd : HeroData} {mu : String → Option MatchupRecord}
    {acc acc2 : ℚ × List Tag} {a : Hero}
    (hst : allyStep hd mu acc a = .ok acc2) :
    acc2.1 = acc.1
      + ((((mu a.name).bind MatchupRecord.ally).bind
          StatBlock.confidence_adjusted_delta).getD 0) := by
  unfold allyStep at hst
  split at hst
  next d hdel =>
    rw [hdel]
    split_ifs at hst with h3 h4
    · split at hst
      next e hgw => exact Except.noConfusion hst
      next gw hgw =>
        have h5 := Except.ok.inj hst
        subst h5
        rfl
    · split at hst
      next e hgw => exact Except.noConfusion hst
      next gw hgw =>
        have h5 := Except.ok.inj hst
        subst h5
        rfl
    · have h5 := Except.ok.inj hst
      subst h5
      rfl
  next hdel =>
    rw [hdel]
    have h4 := Except.ok.inj hst
    subst h4
    simp

theorem matchupFold_ally_fst (hd : HeroData) (mu : String → Option MatchupRecord)
    (l : List Hero) :
    ∀ (acc : ℚ × List Tag) (out : ℚ × List Tag),
      matchupFold (allyStep hd mu) acc l = .ok out →
      out.1 = acc.1 + (l.map fun a =>
        ((((mu a.name).bind MatchupRecord.ally).bind
          StatBlock.confidence_adjusted_delta).getD 0)).sum := by
  induction l with
  | nil =>
    intro acc out h
    simp only [matchupFold, Except.ok.injEq] at h
    subst h
    simp
  | cons a t ih =>
    intro acc out h
    rw [matchupFold] at h
    cases hst : allyStep hd mu acc a with
    | error e => rw [hst] at h; exact Except.noConfusion h
    | ok acc2 =>
      rw [hst] at h
      rw [ih acc2 out h, allyStep_fst hst]
      simp only [List.map_cons, List.sum_cons]
      ring

theorem allyComponent_fst {hd : HeroData} {l : List Hero} {ac : ℚ × List Tag}
    (h : allyComponent hd l = .ok ac) : ac.1 = allySum hd l := by
  unfold allyComponent at h
  split at h
  next hmu =>
    simp only [Except.ok.injEq] at h
    have hz : allySum hd l = 0 := by
      have hmap : l.map (fun ally => allyDeltaOf hd ally.name)
          = l.map fun _ => (0 : ℚ) :=
        List.map_congr_left fun a _ => by simp [allyDeltaOf, hmu]
      rw [allySum, hmap, sum_map_zero]
    rw [hz, ← h]
  next mu hmu =>
    rw [matchupFold_ally_fst hd mu l _ _ h]
    have hmap : l.map (fun ally => allyDeltaOf hd ally.name)
        = l.map fun a =>
          ((((mu a.name).bind MatchupRecord.ally).bind
            StatBlock.confidence_adjusted_delta).getD 0) :=
      List.map_congr_left fun a _ => by simp [allyDeltaOf, hmu]
    rw [allySum, hmap]
    simp

/-! ### C7: the withAllies component, amended -/

/-- C7 (amended): `withAllies` is the sum of the recorded as-ally matchup
deltas over every picked hero on the same side, the scored hero included
when it is itself picked (the source does not exclude it); unrecorded pairs
contribute 0, and the sum is additive over concatenations of pick lists, so
two distinct allies contribute the sum of their individual deltas. -/
theorem c7_with_allies_sum_over_all_picks {ctx : Ctx} {own enemySide : TeamState}
    {nm : String} {hd : HeroData} {r : ScoreResult} {b : Breakdown}
    (hhd : ctx.heroesData nm = some hd)
    (hok : calculateHeroScore ctx own enemySide nm = .ok r)
    (hb : r.breakdown = some b) :
    b.withAllies = allySum hd (own.picks.filterMap id)
      ∧ ∀ l1 l2 : List Hero,
          allySum hd (l1 ++ l2) = allySum hd l1 + allySum hd l2 := by
  obtain ⟨hd2, mc, ec, ac, hhd2, hmc, hec, hac, hb2, _⟩ :=
    calculateHeroScore_ok_inv hok hb
  have hdd : hd2 = hd := by
    rw [hhd] at hhd2
    exact (Option.some.injEq _ _).mp hhd2.symm
  subst hdd
  constructor
  · rw [hb2]
    exact allyComponent_fst hac
  · intro l1 l2
    unfold allySum
    rw [List.map_append, List.sum_append]

/-- Witness for C7 (amended) in the self-ally scenario: the sum over the
picks `[A]` is the recorded self-matchup value 2. -/
theorem c7_with_allies_sum_witness :
    (⟨0, 0, 0, 2, 0⟩ : Breakdown).withAllies
        = allySum hdSelfAlly (stSelfAlly.picks.filterMap id)
      ∧ ∀ l1 l2 : List Hero,
          allySum hdSelfAlly (l1 ++ l2)
            = allySum hdSelfAlly l1 + allySum hdSelfAlly l2 :=
  @c7_with_allies_sum_over_all_picks ctxSelfAlly stSelfAlly emptyTeam "A"
    hdSelfAlly ⟨2, some ⟨0, 0, 0, 2, 0⟩, [], 52, some 50⟩ ⟨0, 0, 0, 2, 0⟩
    rfl
    (by norm_num [calculateHeroScore, ctxSelfAlly, stSelfAlly, emptyTeam,
      hdSelfAlly, mapComponent, enemyComponent, allyComponent, matchupFold,
      allyStep, enemyStep, globalWinRate, wrOr50, jsAbs,
      getPlayerWinRateDelta, bestDeltaStep, playerTags, playerTagScan,
      tagScanStep, List.enum])
    rfl

/-! ### C9: idempotence of the resolver, amended -/

theorem pass1_getD (manual : List Bool) (picks : List (Option Hero))
    (cur : List (Option ℕ)) {s : ℕ} (hs : s < 5) :
    (pass1 manual picks cur).getD s none
      = if manual.getD s false ∧ (picks.getD s none).isSome then cur.getD s none
        else none := by
  unfold pass1
  rw [List.getD_eq_getElem?_getD, List.getElem?_map, List.getElem?_range hs]
  rfl

theorem getD_set_ne {a : List (Option ℕ)} {s t : ℕ} (h : s ≠ t)
    (w : Option ℕ) : (a.set s w).getD t none = a.getD t none := by
  rw [List.getD_eq_getElem?_getD, List.getElem?_set_ne h,
    ← List.getD_eq_getElem?_getD]

theorem pass2Step_preserve (vp : List Player) (picks : List (Option Hero))
    {a : List (Option ℕ)} (s : ℕ) {t : ℕ} {v : ℕ}
    (h : a.getD t none = some v) :
    (pass2Step vp picks a s).getD t none = some v := by
  unfold pass2Step
  split
  · exact h
  · by_cases hs : (a.getD s none).isSome
    · rw [if_pos hs]
      exact h
    · rw [if_neg hs]
      have hts : s ≠ t := by
        intro heq
        rw [heq, h] at hs
        exact hs rfl
      dsimp only
      split_ifs with hbest
      · split
        · rw [getD_set_ne hts]
          exact h
        · exact h
      · split
        · rw [getD_set_ne hts]
          exact h
        · exact h

theorem pass3Step_preserve (n : ℕ) {a : List (Option ℕ)} (s : ℕ) {t : ℕ}
    {v : ℕ} (h : a.getD t none = some v) :
    (pass3Step n a s).getD t none = some v := by
  unfold pass3Step
  split_ifs with hc
  · have hts : s ≠ t := by
      intro heq
      rw [heq, h] at hc
      simp at hc
    split
    · rw [getD_set_ne hts]
      exact h
    · rw [getD_set_ne hts]
      exact h
  · exact h

theorem pass2_preserve (vp : List Player) (picks : List (Option Hero))
    {a : List (Option ℕ)} {t : ℕ} {v : ℕ} (h : a.getD t none = some v) :
    (pass2 vp picks a).getD t none = some v := by
  unfold pass2
  have hgen : ∀ (l : List ℕ) (a0 : List (Option ℕ)),
      a0.getD t none = some v →
      (l.foldl (pass2Step vp picks) a0).getD t none = some v := by
    intro l
    induction l with
    | nil => intro a0 h0; exact h0
    | cons x xs ih =>
      intro a0 h0
      exact ih _ (pass2Step_preserve vp picks x h0)
  exact hgen _ _ h

theorem pass3_preserve (n : ℕ) {a : List (Option ℕ)} {t : ℕ} {v : ℕ}
    (h : a.getD t none = some v) : (pass3 n a).getD t none = some v := by
  unfold pass3
  have hgen : ∀ (l : List ℕ) (a0 : List (Option ℕ)),
      a0.getD t none = some v →
      (l.foldl (pass3Step n) a0).getD t none = some v := by
    intro l
    induction l with
    | nil => intro a0 h0; exact h0
    | cons x xs ih =>
      intro a0 h0
      exact ih _ (pass3Step_preserve n x h0)
  exact hgen _ _ h

theorem pass1_getElem? (manual : List Bool) (picks : List (Option Hero))
    (cur : List (Option ℕ)) {s : ℕ} (hs : s < 5) :
    (pass1 manual picks cur)[s]?
      = some (if manual.getD s false ∧ (picks.getD s none).isSome then
          cur.getD s none else none) := by
  unfold pass1
  rw [List.getElem?_map, List.getElem?_range hs]
  rfl

theorem pass1_length (manual : List Bool) (picks : List (Option Hero))
    (cur : List (Option ℕ)) : (pass1 manual picks cur).length = 5 := by
  simp [pass1]

/-- C9 (amended): the resolver is idempotent provided every manual-flagged
slot that has a pick also has a non-null stored assignment. (A manual slot
whose pick is set but whose assignment is null — produced by a manual
unassign — is re-pinned differently on the second run, as the counterexample
shows.) -/
theorem c9_idempotent_when_manual_picked_assigned (st : TeamState)
    (hman : ∀ s, s < 5 → st.manualAssignments.getD s false = true →
      (st.picks.getD s none).isSome → (st.assignments.getD s none).isSome) :
    assignHeroesToPlayers (assignHeroesToPlayers st) = assignHeroesToPlayers st := by
  by_cases hvp : (validPlayers st.players).isEmpty
  · have h1 : assignHeroesToPlayers st
        = { st with assignments := List.replicate 5 none,
                    manualAssignments := List.replicate 5 false } := by
      simp only [assignHeroesToPlayers]
      rw [if_pos hvp]
    rw [h1]
    simp only [assignHeroesToPlayers]
    rw [if_pos hvp]
  · have key : pass1 st.manualAssignments st.picks
        (pass3 (validPlayers st.players).length
          (pass2 (validPlayers st.players) st.picks
            (pass1 st.manualAssignments st.picks st.assignments)))
        = pass1 st.manualAssignments st.picks st.assignments := by
      apply List.ext_getElem?
      intro n
      by_cases hn : n < 5
      · rw [pass1_getElem? _ _ _ hn, pass1_getElem? _ _ _ hn]
        congr 1
        by_cases hcond : st.manualAssignments.getD n false = true
            ∧ (st.picks.getD n none).isSome
        · rw [if_pos hcond, if_pos hcond]
          obtain ⟨v, hv⟩ := Option.isSome_iff_exists.mp
            (hman n hn hcond.1 hcond.2)
          have ha1 : (pass1 st.manualAssignments st.picks
              st.assignments).getD n none = some v := by
            rw [pass1_getD _ _ _ hn, if_pos hcond]
            exact hv
          rw [pass3_preserve _ (pass2_preserve _ _ ha1), hv]
        · rw [if_neg hcond, if_neg hcond]
      · rw [List.getElem?_eq_none, List.getElem?_eq_none]
        · rw [pass1_length]
          omega
        · rw [pass1_length]
          omega
    have h1 : assignHeroesToPlayers st
        = { st with assignments := (pass3 (validPlayers st.players).length
            (pass2 (validPlayers st.players) st.picks
              (pass1 st.manualAssignments st.picks st.assignments))) } := by
      simp only [assignHeroesToPlayers]
      rw [if_neg hvp]
    rw [h1]
    simp only [assignHeroesToPlayers]
    rw [if_neg hvp]
    rw [key]

/-- Witness for C9 (amended): the gap-picks state has no manual flags, so the
hypothesis holds vacuously and the resolver is idempotent on it. -/
theorem c9_idempotent_witness :
    assignHeroesToPlayers (assignHeroesToPlayers stGapPicks)
      = assignHeroesToPlayers stGapPicks :=
  c9_idempotent_when_manual_picked_assigned stGapPicks
    (fun s hs hm => by interval_cases s <;> simp [stGapPicks] at hm)

/-! ### C1: totality of the scorer -/

/-- C1: the scoring function is not total. For hero `X`, whose catalog record
has no `global` block but a +3 confidence-adjusted delta on the selected map,
the map-tag branch dereferences `heroData.global.win_rate` of `undefined`
(app.js:1985) and throws; the claim says a numeric result is always
returned. -/
theorem c1_score_throws_when_global_missing :
    calculateHeroScore ctxNoGlobal emptyTeam emptyTeam "X" = .error () := by
  rfl

/-! ### C2: the resolver's duplicate-free invariant -/

/-- C2 counterexample: with two valid players and picks in slots 0 and 2
(slot 1 empty, no manual flags), the third pass of `assignHeroesToPlayers`
finds every player assigned and falls back to `assignments[1] = 1`
(app.js:1933), so slots 1 and 2 both reference player 1 — the claimed
invariant fails. -/
theorem c2_counterexample_duplicate_assignment :
    (assignHeroesToPlayers stGapPicks).assignments
        = [some 0, some 1, some 1, none, none]
      ∧ ¬ InjAssign [some 0, some 1, some 1, none, none] := by
  refine ⟨by rfl, fun h => ?_⟩
  exact h 1 2 (by omega) (by omega) (by omega) 1 rfl rfl

/-! ### C4: ordering of the recommendation list -/

/-- C4 counterexample: two heroes with identical scores appear in hero-list
order (`B` before `A`), not hero-id order: the sort comparator
(app.js:2158) uses only `expectedWinRate`, and stability keeps the
registry order on ties, although `A`'s id precedes `B`'s. -/
theorem c4_counterexample_tie_not_id_ordered :
    getRecommendations ctxTie [] emptyTeam emptyTeam
        = .ok [⟨⟨"B", "b", none⟩, scoreTie⟩, ⟨⟨"A", "a", none⟩, scoreTie⟩]
      ∧ idLtB "a" "b" = true := by
  refine ⟨?_, by rfl⟩
  norm_num [getRecommendations, hasSignal, ctxTie, emptyTeam, recCandidates,
    recFold, recStep, unavailableSlugs, roleFiltered, keepScore, scoreTie,
    calculateHeroScore, hdPlusOne, mapComponent, enemyComponent, allyComponent,
    matchupFold, globalWinRate, wrOr50, getPlayerWinRateDelta, bestDeltaStep,
    playerTags, playerTagScan, tagScanStep, List.enum, sortByEwr, insertByEwr,
    Except.map]

/-! ### C5: the per-player per-hero delta -/

/-- C5 counterexample: a player with 30 games on hero `H` at a recorded 0%
win rate. The claim demands `clamp(0 - 50) = -5`, but `win_rate || 50`
(app.js:1720) treats the falsy 0 as 50 and the code returns 0. -/
theorem c5_counterexample_zero_win_rate :
    getPlayerHeroWinRateDelta playerZeroWr "H" = 0
      ∧ cap5 ((0 : ℚ) - 50) = -5 := by
  constructor
  · norm_num [getPlayerHeroWinRateDelta, deltaBucketStep, playerZeroWr, wrOr50,
      cap5, jsMax, jsMin]
  · norm_num [cap5, jsMax, jsMin]

/-! ### C7: the withAllies component -/

/-- C7 counterexample: hero `A` is itself picked and carries a recorded +2
as-ally matchup with itself; `ownPicks` (app.js:1957) does not exclude the
scored hero, so `withAllies = 2` although the claim's sum excludes the hero
being scored (which would give 0 here). -/
theorem c7_counterexample_self_ally_counted :
    calculateHeroScore ctxSelfAlly stSelfAlly emptyTeam "A"
        = .ok ⟨2, some ⟨0, 0, 0, 2, 0⟩, [], 52, some 50⟩
      ∧ (2 : ℚ) ≠ 0 := by
  refine ⟨?_, by norm_num⟩
  norm_num [calculateHeroScore, ctxSelfAlly, stSelfAlly, emptyTeam, hdSelfAlly,
    mapComponent, enemyComponent, allyComponent, matchupFold, allyStep,
    enemyStep, globalWinRate, wrOr50, jsAbs, getPlayerWinRateDelta,
    bestDeltaStep, playerTags, playerTagScan, tagScanStep, List.enum]

/-! ### C8: explanation tags -/

/-- C8 counterexample: hero `G` scores with a global component of +5
(magnitude ≥ 3), yet no tag at all is emitted — `calculateHeroScore` has no
tag branch for the global component, contradicting the claim's "including
the global component". -/
theorem c8_counterexample_no_global_tag :
    calculateHeroScore ctxGlobalFive emptyTeam emptyTeam "G"
        = .ok ⟨5, some ⟨5, 0, 0, 0, 0⟩, [], 55, some 50⟩
      ∧ (3 : ℚ) ≤ |(5 : ℚ)| := by
  refine ⟨?_, by norm_num⟩
  norm_num [calculateHeroScore, ctxGlobalFive, emptyTeam, hdGlobalFive,
    mapComponent, enemyComponent, allyComponent, matchupFold, globalWinRate,
    wrOr50, getPlayerWinRateDelta, bestDeltaStep, playerTags, playerTagScan,
    tagScanStep, List.enum]

/-! ### C9: idempotence of the resolver -/

/-- C9 counterexample: slot 1 is manual-flagged with a pick but a null stored
assignment, manual slots 3 and 4 pin players 0 and 2. The first run assigns
slot 0 the only free player 1 and the fallback fills slot 1 with index 1;
the second run re-pins slot 1 to player 1 first, starving slot 0 into the
fallback index 0, so the two runs disagree. -/
theorem c9_counterexample_not_idempotent :
    (assignHeroesToPlayers (assignHeroesToPlayers stManualNull)).assignments
      ≠ (assignHeroesToPlayers stManualNull).assignments := by
  have h1 : (assignHeroesToPlayers stManualNull).assignments
      = [some 1, some 1, some 2, some 0, some 2] := rfl
  have h2 : (assignHeroesToPlayers (assignHeroesToPlayers stManualNull)).assignments
      = [some 0, some 1, some 2, some 0, some 2] := rfl
  rw [h1, h2]
  decide

theorem taken_iff {a : List (Option ℕ)} {p : ℕ} :
    taken a p = true ↔ some p ∈ a := by
  simp [taken, List.any_eq_true]

theorem mem_iff_getD {a : List (Option ℕ)} {v : ℕ} (hlen : a.length = 5) :
    some v ∈ a ↔ ∃ i, i < 5 ∧ a.getD i none = some v := by
  constructor
  · intro h
    obtain ⟨i, hi, hget⟩ := List.mem_iff_getElem.mp h
    refine ⟨i, by omega, ?_⟩
    rw [List.getD_eq_getElem?_getD, List.getElem?_eq_getElem hi, hget]
    rfl
  · rintro ⟨i, hi5, hget⟩
    rw [List.getD_eq_getElem?_getD] at hget
    cases hg : a[i]? with
    | none => rw [hg] at hget; exact absurd hget (by simp)
    | some w =>
      rw [hg] at hget
      exact hget ▸ List.getElem?_mem hg

theorem getD_all_false {l : List Bool} (h : ∀ b ∈ l, b = false) (s : ℕ) :
    l.getD s false = false := by
  rw [List.getD_eq_getElem?_getD]
  cases hg : l[s]? with
  | none => rfl
  | some b => simp [h b (List.getElem?_mem hg)]

theorem pass1_all_false {manual : List Bool} {picks : List (Option Hero)}
    {cur : List (Option ℕ)} (h : ∀ b ∈ manual, b = false) :
    pass1 manual picks cur = List.replicate 5 none := by
  unfold pass1
  have hrep : List.replicate 5 (none : Option ℕ)
      = (List.range 5).map fun _ => none := by
    rw [show (fun _ => (none : Option ℕ)) = Function.const ℕ none from rfl,
      List.map_const, List.length_range]
  rw [hrep]
  apply List.map_congr_left
  intro s _
  rw [if_neg]
  rintro ⟨hm, _⟩
  rw [getD_all_false h s] at hm
  exact Bool.noConfusion hm

theorem frontLoaded_threshold {picks : List (Option Hero)}
    (h : FrontLoadedPicks picks) :
    ∃ k, k ≤ 5 ∧ ∀ t, t < 5 → ((picks.getD t none).isSome ↔ t < k) := by
  have hex : ∃ t, picks.getD t none = none ∨ t = 5 := ⟨5, Or.inr rfl⟩
  refine ⟨Nat.find hex, Nat.find_le (Or.inr rfl), fun t ht => ⟨?_, ?_⟩⟩
  · intro hsome
    by_contra hge
    push_neg at hge
    rcases Nat.find_spec hex with hnull | h5
    · rcases Nat.lt_or_ge (Nat.find hex) t with hlt | hge2
      · rw [h (Nat.find hex) t hlt ht hnull] at hsome
        exact Bool.noConfusion hsome
      · have heq : Nat.find hex = t := by omega
        rw [← heq, hnull] at hsome
        exact Bool.noConfusion hsome
    · omega
  · intro htk
    have := Nat.find_min hex htk
    push_neg at this
    cases hp : picks.getD t none with
    | none => exact absurd (Or.inl hp) (by tauto)
    | some x => rfl

theorem getD_replicate_none (i : ℕ) :
    (List.replicate 5 (none : Option ℕ)).getD i none = none := by
  rw [List.getD_eq_getElem?_getD, List.getElem?_replicate]
  split <;> rfl

theorem SlotInv_replicate (n : ℕ) : SlotInv n 0 (List.replicate 5 none) := by
  refine ⟨by simp, by omega, by omega, ?_, ?_, ?_⟩
  · intro i j hi hj hij v hvi hvj
    rw [getD_replicate_none] at hvi
    exact Option.noConfusion hvi
  · intro i v hvi
    rw [getD_replicate_none] at hvi
    exact Option.noConfusion hvi
  · intro t ht
    rw [getD_replicate_none]
    simp

theorem firstAvailableIdx_none_iff {n : ℕ} {a : List (Option ℕ)} :
    firstAvailableIdx n a = none ↔ ∀ i, i < n → taken a i = true := by
  rw [firstAvailableIdx, List.find?_eq_none]
  constructor
  · intro h i hi
    have := h i (List.mem_range.mpr hi)
    simpa using this
  · intro h i hi
    have := h i (List.mem_range.mp hi)
    simp [this]

theorem firstAvailableIdx_some {n : ℕ} {a : List (Option ℕ)} {i : ℕ}
    (h : firstAvailableIdx n a = some i) : i < n ∧ taken a i = false := by
  have h1 := List.find?_some h
  have h2 := List.mem_of_find?_eq_some h
  exact ⟨List.mem_range.mp h2, by simpa using h1⟩

theorem getD_none_of_ge {a : List (Option ℕ)} (hlen : a.length = 5) {t : ℕ}
    (ht : 5 ≤ t) : a.getD t none = none := by
  rw [List.getD_eq_getElem?_getD, List.getElem?_eq_none (by omega)]
  rfl

theorem exists_unassigned {n c : ℕ} {a : List (Option ℕ)}
    (hinv : SlotInv n c a) (hcn : c < n) :
    ∃ p, p < n ∧ taken a p = false := by
  obtain ⟨hlen, hc5, hcn2, hinj, hbound, hthr⟩ := hinv
  classical
  set S : Finset ℕ := (Finset.range c).image (fun i => (a.getD i none).getD 0)
    with hS
  have hsub : S ⊆ Finset.range n := by
    intro p hp
    obtain ⟨i, hi, hpi⟩ := Finset.mem_image.mp hp
    have hic : i < c := Finset.mem_range.mp hi
    obtain ⟨v, hv⟩ := Option.isSome_iff_exists.mp ((hthr i (by omega)).mpr hic)
    have hpi2 : (a.getD i none).getD 0 = p := hpi
    rw [hv] at hpi2
    simp only [Option.getD_some] at hpi2
    exact Finset.mem_range.mpr (hpi2 ▸ hbound i v hv)
  have hcard1 : S.card ≤ c := by
    rw [hS]
    exact le_trans Finset.card_image_le (le_of_eq (Finset.card_range c))
  have hss : S ⊂ Finset.range n := by
    rw [Finset.ssubset_iff_of_subset hsub]
    by_contra hno
    push_neg at hno
    have hsub2 : Finset.range n ⊆ S := fun x hx => hno x hx
    have := Finset.card_le_card hsub2
    rw [Finset.card_range] at this
    omega
  obtain ⟨p, hpn, hpS⟩ := Finset.exists_of_ssubset hss
  refine ⟨p, Finset.mem_range.mp hpn, ?_⟩
  cases htk : taken a p with
  | false => rfl
  | true =>
    exfalso
    obtain ⟨i, hi5, hget⟩ := (mem_iff_getD hlen).mp (taken_iff.mp htk)
    have hic : i < c := (hthr i hi5).mp (by rw [hget]; rfl)
    exact hpS (Finset.mem_image.mpr ⟨i, Finset.mem_range.mpr hic, by
      rw [hget]; rfl⟩)

theorem all_taken {n c : ℕ} {a : List (Option ℕ)}
    (hinv : SlotInv n c a) (hnc : n ≤ c) :
    ∀ p, p < n → taken a p = true := by
  obtain ⟨hlen, hc5, hcn2, hinj, hbound, hthr⟩ := hinv
  have hceq : c = n := by omega
  subst hceq
  classical
  set S : Finset ℕ := (Finset.range c).image (fun i => (a.getD i none).getD 0)
    with hS
  have hval : ∀ i, i < c → ∃ v, a.getD i none = some v := by
    intro i hic
    exact Option.isSome_iff_exists.mp ((hthr i (by omega)).mpr hic)
  have hsub : S ⊆ Finset.range c := by
    intro p hp
    obtain ⟨i, hi, hpi⟩ := Finset.mem_image.mp hp
    obtain ⟨v, hv⟩ := hval i (Finset.mem_range.mp hi)
    have hpi2 : (a.getD i none).getD 0 = p := hpi
    rw [hv] at hpi2
    simp only [Option.getD_some] at hpi2
    exact Finset.mem_range.mpr (hpi2 ▸ hbound i v hv)
  have hinjOn : Set.InjOn (fun i => (a.getD i none).getD 0)
      ↑(Finset.range c) := by
    intro i hi j hj hij
    simp only [Finset.coe_range, Set.mem_Iio] at hi hj
    obtain ⟨v, hv⟩ := hval i hi
    obtain ⟨w, hw⟩ := hval j hj
    have hij2 : (a.getD i none).getD 0 = (a.getD j none).getD 0 := hij
    rw [hv, hw] at hij2
    simp only [Option.getD_some] at hij2
    subst hij2
    by_contra hne
    exact hinj i j (by omega) (by omega) hne v hv hw
  have hcard : S.card = c := by
    rw [hS, Finset.card_image_of_injOn hinjOn, Finset.card_range]
  have hSeq : S = Finset.range c :=
    Finset.eq_of_subset_of_card_le hsub
      (by rw [Finset.card_range, hcard])
  intro p hp
  have hpS : p ∈ S := by rw [hSeq]; exact Finset.mem_range.mpr hp
  obtain ⟨i, hi, hpi⟩ := Finset.mem_image.mp hpS
  obtain ⟨v, hv⟩ := hval i (Finset.mem_range.mp hi)
  have hpi2 : (a.getD i none).getD 0 = p := hpi
  rw [hv] at hpi2
  simp only [Option.getD_some] at hpi2
  subst hpi2
  refine taken_iff.mpr ((mem_iff_getD hlen).mpr ⟨i, ?_, hv⟩)
  have := Finset.mem_range.mp hi
  omega

theorem SlotInv_set {n c : ℕ} {a : List (Option ℕ)} {s i : ℕ}
    (hinv : SlotInv n c a) (hs : s < 5) (hcs : c = s) (hcn : c < n)
    (hi : i < n) (hti : taken a i = false) :
    SlotInv n (c + 1) (a.set s (some i)) := by
  obtain ⟨hlen, hc5, hcn2, hinj, hbound, hthr⟩ := hinv
  have hgetset : ∀ t, (a.set s (some i)).getD t none
      = if t = s then some i else a.getD t none := by
    intro t
    by_cases hts : t = s
    · subst hts
      rw [if_pos rfl, List.getD_eq_getElem?_getD,
        List.getElem?_set_self (by omega)]
      rfl
    · rw [if_neg hts, List.getD_eq_getElem?_getD,
        List.getElem?_set_ne (fun h => hts h.symm), ← List.getD_eq_getElem?_getD]
  have hfresh : ∀ t v, a.getD t none = some v → v ≠ i := by
    intro t v hv hvi
    subst hvi
    by_cases ht5 : t < 5
    · have : taken a v = true :=
        taken_iff.mpr ((mem_iff_getD hlen).mpr ⟨t, ht5, hv⟩)
      rw [this] at hti
      exact Bool.noConfusion hti
    · rw [getD_none_of_ge hlen (by omega)] at hv
      exact Option.noConfusion hv
  refine ⟨by rw [List.length_set]; exact hlen, by omega, by omega, ?_, ?_, ?_⟩
  · intro x y hx hy hxy v hvx hvy
    rw [hgetset] at hvx hvy
    by_cases hxs : x = s
    · rw [if_pos hxs] at hvx
      have hys : ¬ y = s := fun h => hxy (by rw [hxs, h])
      rw [if_neg hys] at hvy
      have hvi : v = i := by
        have := Option.some.inj hvx
        omega
      exact hfresh y v hvy (by omega)
    · rw [if_neg hxs] at hvx
      by_cases hys : y = s
      · rw [if_pos hys] at hvy
        have hvi : v = i := by
          have := Option.some.inj hvy
          omega
        exact hfresh x v hvx (by omega)
      · rw [if_neg hys] at hvy
        exact hinj x y hx hy hxy v hvx hvy
  · intro t v hv
    rw [hgetset] at hv
    by_cases hts : t = s
    · rw [if_pos hts] at hv
      have := Option.some.inj hv
      omega
    · rw [if_neg hts] at hv
      exact hbound t v hv
  · intro t ht
    rw [hgetset]
    by_cases hts : t = s
    · rw [if_pos hts]
      simp only [Option.isSome_some, true_iff]
      omega
    · rw [if_neg hts]
      rw [hthr t ht]
      omega

theorem bestAvail_foldl_all_taken {a : List (Option ℕ)} {nm : String}
    (l : List (ℕ × Player)) (b : ℚ × Option ℕ)
    (h : ∀ ip ∈ l, taken a ip.1 = true) :
    l.foldl (bestAvailStep a nm) b = b := by
  induction l generalizing b with
  | nil => rfl
  | cons ip t ih =>
    rw [List.foldl_cons]
    have hip := h ip (List.mem_cons_self ip t)
    rw [show bestAvailStep a nm b ip = b from by rw [bestAvailStep, if_pos hip]]
    exact ih b fun x hx => h x (List.mem_cons_of_mem ip hx)

theorem bestAvailablePlayer_all_taken {vp : List Player} {a : List (Option ℕ)}
    {nm : String} (h : ∀ i, i < vp.length → taken a i = true) :
    bestAvailablePlayer vp a nm = (-999, none) := by
  unfold bestAvailablePlayer
  exact bestAvail_foldl_all_taken vp.enum (-999, none)
    fun ip hip => h ip.1 (List.mem_enum hip).1

theorem bestAvail_foldl_snd {vp : List Player} {a : List (Option ℕ)}
    {nm : String} (l : List (ℕ × Player)) (b : ℚ × Option ℕ)
    (hb : ∀ j, b.2 = some j → j < vp.length ∧ taken a j = false)
    (hl : ∀ ip ∈ l, ip.1 < vp.length) :
    ∀ j, (l.foldl (bestAvailStep a nm) b).2 = some j →
      j < vp.length ∧ taken a j = false := by
  induction l generalizing b with
  | nil => exact hb
  | cons ip t ih =>
    rw [List.foldl_cons]
    refine ih (bestAvailStep a nm b ip) ?_
      (fun x hx => hl x (List.mem_cons_of_mem ip hx))
    intro j hj
    rw [bestAvailStep] at hj
    by_cases htk : taken a ip.1 = true
    · rw [if_pos htk] at hj
      exact hb j hj
    · rw [if_neg htk] at hj
      dsimp only at hj
      by_cases hlt : b.1 < getPlayerHeroWinRateDelta ip.2 nm
      · rw [if_pos hlt] at hj
        have hji : j = ip.1 := (Option.some.inj hj).symm
        subst hji
        exact ⟨hl ip (List.mem_cons_self ip t),
          Bool.not_eq_true _ ▸ eq_false_of_ne_true htk⟩
      · rw [if_neg hlt] at hj
        exact hb j hj

theorem bestAvailablePlayer_snd {vp : List Player} {a : List (Option ℕ)}
    {nm : String} {i : ℕ} (h : (bestAvailablePlayer vp a nm).2 = some i) :
    i < vp.length ∧ taken a i = false := by
  unfold bestAvailablePlayer at h
  exact bestAvail_foldl_snd vp.enum (-999, none) (fun j hj => Option.noConfusion hj)
    (fun ip hip => (List.mem_enum hip).1) i h

theorem bestAvail_foldl_none {a : List (Option ℕ)} {nm : String}
    (l : List (ℕ × Player)) (b : ℚ × Option ℕ)
    (hb : b.2 = none → b.1 = -999) :
    (l.foldl (bestAvailStep a nm) b).2 = none →
      (l.foldl (bestAvailStep a nm) b).1 = -999 := by
  induction l generalizing b with
  | nil => exact hb
  | cons ip t ih =>
    rw [List.foldl_cons]
    refine ih (bestAvailStep a nm b ip) ?_
    intro hnone
    rw [bestAvailStep] at hnone ⊢
    by_cases htk : taken a ip.1 = true
    · rw [if_pos htk] at hnone ⊢
      exact hb hnone
    · rw [if_neg htk] at hnone ⊢
      dsimp only at hnone ⊢
      by_cases hlt : b.1 < getPlayerHeroWinRateDelta ip.2 nm
      · rw [if_pos hlt] at hnone
        exact Option.noConfusion hnone
      · rw [if_neg hlt] at hnone ⊢
        exact hb hnone

theorem bestAvailablePlayer_none {vp : List Player} {a : List (Option ℕ)}
    {nm : String} (h : (bestAvailablePlayer vp a nm).2 = none) :
    (bestAvailablePlayer vp a nm).1 = -999 := by
  unfold bestAvailablePlayer at h ⊢
  exact bestAvail_foldl_none vp.enum (-999, none) (fun _ => rfl) h

theorem bestAvail_foldl_mono (a : List (Option ℕ)) (nm : String)
    (l : List (ℕ × Player)) (b : ℚ × Option ℕ) :
    b.1 ≤ (l.foldl (bestAvailStep a nm) b).1 := by
  induction l generalizing b with
  | nil => exact le_refl _
  | cons ip t ih =>
    rw [List.foldl_cons]
    refine le_trans ?_ (ih (bestAvailStep a nm b ip))
    rw [bestAvailStep]
    by_cases htk : taken a ip.1 = true
    · rw [if_pos htk]
    · rw [if_neg htk]
      dsimp only
      by_cases hlt : b.1 < getPlayerHeroWinRateDelta ip.2 nm
      · rw [if_pos hlt]
        exact le_of_lt hlt
      · rw [if_neg hlt]

theorem bestAvail_foldl_gt {a : List (Option ℕ)} {nm : String}
    (l : List (ℕ × Player)) (b : ℚ × Option ℕ)
    (h : ∃ ip ∈ l, taken a ip.1 = false) :
    -999 < (l.foldl (bestAvailStep a nm) b).1 := by
  induction l generalizing b with
  | nil => simp at h
  | cons ip t ih =>
    rw [List.foldl_cons]
    rcases h with ⟨jp, hjp, hjtk⟩
    rcases List.mem_cons.mp hjp with rfl | hjt
    · have htk : ¬ taken a jp.1 = true := by simp [hjtk]
      have hd := (getPlayerHeroWinRateDelta_bounds jp.2 nm).1
      have hstep : getPlayerHeroWinRateDelta jp.2 nm
            ≤ (bestAvailStep a nm b jp).1
          ∨ b.1 ≤ (bestAvailStep a nm b jp).1 ∧
            getPlayerHeroWinRateDelta jp.2 nm ≤ b.1 := by
        rw [bestAvailStep, if_neg htk]
        dsimp only
        by_cases hlt : b.1 < getPlayerHeroWinRateDelta jp.2 nm
        · rw [if_pos hlt]
          exact Or.inl (le_refl _)
        · rw [if_neg hlt]
          exact Or.inr ⟨le_refl _, le_of_not_lt hlt⟩
      have hmono := bestAvail_foldl_mono a nm t (bestAvailStep a nm b jp)
      rcases hstep with h1 | ⟨h1, h2⟩
      · linarith
      · have hb : -999 < b.1 := by linarith
        linarith
    · exact ih (bestAvailStep a nm b ip) ⟨jp, hjt, hjtk⟩

theorem bestAvailablePlayer_gt {vp : List Player} {a : List (Option ℕ)}
    {nm : String} {p : ℕ} (hp : p < vp.length) (htk : taken a p = false) :
    -999 < (bestAvailablePlayer vp a nm).1 := by
  unfold bestAvailablePlayer
  have hlen2 : p < vp.enum.length := by rw [List.enum_length]; exact hp
  refine bestAvail_foldl_gt vp.enum (-999, none) ⟨(p, vp[p]), ?_, htk⟩
  have heq : vp.enum[p] = (p, vp[p]) := List.getElem_enum vp p hlen2
  exact heq ▸ List.getElem_mem hlen2

theorem pass2Step_inv {vp : List Player} {picks : List (Option Hero)} {k : ℕ}
    (hk : ∀ t, t < 5 → ((picks.getD t none).isSome ↔ t < k))
    {a : List (Option ℕ)} {s c : ℕ} (hs : s < 5)
    (hc : c = min s (min k vp.length)) (hinv : SlotInv vp.length c a) :
    SlotInv vp.length (min (s + 1) (min k vp.length)) (pass2Step vp picks a s) := by
  have hc5 := hinv.2.1
  have hcn := hinv.2.2.1
  by_cases hsk : s < k
  · have hpick : (picks.getD s none).isSome := (hk s hs).mpr hsk
    obtain ⟨h0, hh0⟩ := Option.isSome_iff_exists.mp hpick
    by_cases hsn : s < vp.length
    · have hcs : c = s := by omega
      have hnull : ¬ (a.getD s none).isSome = true := by
        rw [hinv.2.2.2.2.2 s hs]
        omega
      have htarget : min (s + 1) (min k vp.length) = c + 1 := by omega
      rw [htarget]
      obtain ⟨p, hpn, hptk⟩ := exists_unassigned hinv (by omega)
      unfold pass2Step
      rw [hh0]
      dsimp only
      rw [if_neg hnull]
      by_cases hbest : -999 < (bestAvailablePlayer vp a h0.name).1
      · rw [if_pos hbest]
        cases hb2 : (bestAvailablePlayer vp a h0.name).2 with
        | none =>
          have := bestAvailablePlayer_none hb2
          linarith
        | some i =>
          obtain ⟨hin, hitk⟩ := bestAvailablePlayer_snd hb2
          exact SlotInv_set hinv hs hcs (by omega) hin hitk
      · exact absurd (bestAvailablePlayer_gt hpn hptk) hbest
    · have hceq : c = vp.length := by omega
      have htk : ∀ i, i < vp.length → taken a i = true :=
        all_taken hinv (by omega)
      have hnull : ¬ (a.getD s none).isSome = true := by
        rw [hinv.2.2.2.2.2 s hs]
        omega
      unfold pass2Step
      rw [hh0]
      dsimp only
      rw [if_neg hnull]
      rw [bestAvailablePlayer_all_taken htk]
      rw [if_neg (by norm_num)]
      rw [show firstAvailableIdx vp.length a = none from
        firstAvailableIdx_none_iff.mpr htk]
      have : min (s + 1) (min k vp.length) = c := by omega
      rw [this]
      exact hinv
  · have hnone : picks.getD s none = none := by
      cases hp : picks.getD s none with
      | none => rfl
      | some x => exact absurd ((hk s hs).mp (by rw [hp]; rfl)) hsk
    unfold pass2Step
    rw [hnone]
    have : min (s + 1) (min k vp.length) = c := by omega
    rw [this]
    exact hinv

theorem pass3Step_inv {n m : ℕ} (hmn : m ≤ n) (hm5 : m ≤ 5)
    {a : List (Option ℕ)} {s c : ℕ} (hs : s < 5)
    (hc : c = max (min s n) m) (hinv : SlotInv n c a) :
    SlotInv n (max (min (s + 1) n) m) (pass3Step n a s) := by
  have hc5 := hinv.2.1
  have hcn := hinv.2.2.1
  by_cases hnull : (a.getD s none).isNone = true
  · by_cases hsn : s < n
    · have hnots : ¬ (a.getD s none).isSome = true := by
        rw [Option.isNone_iff_eq_none] at hnull
        rw [hnull]
        simp
      have hsc : ¬ s < c := by
        rw [← hinv.2.2.2.2.2 s hs]
        exact hnots
      have hcs : c = s := by omega
      have htarget : max (min (s + 1) n) m = c + 1 := by omega
      rw [htarget]
      unfold pass3Step
      rw [if_pos ⟨hnull, hsn⟩]
      obtain ⟨p, hpn, hptk⟩ := exists_unassigned hinv (by omega)
      cases hfa : firstAvailableIdx n a with
      | none =>
        have := firstAvailableIdx_none_iff.mp hfa p hpn
        rw [this] at hptk
        exact Bool.noConfusion hptk
      | some i =>
        obtain ⟨hin, hitk⟩ := firstAvailableIdx_some hfa
        exact SlotInv_set hinv hs hcs (by omega) hin hitk
    · unfold pass3Step
      rw [if_neg (fun h => hsn h.2)]
      have : max (min (s + 1) n) m = c := by omega
      rw [this]
      exact hinv
  · unfold pass3Step
    rw [if_neg (fun h => hnull h.1)]
    have hsome : (a.getD s none).isSome = true := by
      cases hcase : a.getD s none with
      | none => rw [hcase] at hnull; exact absurd rfl hnull
      | some v => rfl
    have hsc : s < c := (hinv.2.2.2.2.2 s hs).mp hsome
    have : max (min (s + 1) n) m = c := by omega
    rw [this]
    exact hinv

theorem pass2_inv {vp : List Player} {picks : List (Option Hero)} {k : ℕ}
    (hk : ∀ t, t < 5 → ((picks.getD t none).isSome ↔ t < k)) :
    SlotInv vp.length (min 5 (min k vp.length))
      (pass2 vp picks (List.replicate 5 none)) := by
  have j0 : SlotInv vp.length (min 0 (min k vp.length))
      (List.replicate 5 none) := by
    have h0 : min 0 (min k vp.length) = 0 := by omega
    rw [h0]
    exact SlotInv_replicate vp.length
  have j1 := pass2Step_inv hk (by omega) rfl j0
  have j2 := pass2Step_inv hk (by omega) rfl j1
  have j3 := pass2Step_inv hk (by omega) rfl j2
  have j4 := pass2Step_inv hk (by omega) rfl j3
  have j5 := pass2Step_inv hk (by omega) rfl j4
  exact j5

theorem pass3_inv {n m : ℕ} (hmn : m ≤ n) (hm5 : m ≤ 5)
    {a : List (Option ℕ)} {c : ℕ} (hc : c = m) (hinv : SlotInv n c a) :
    SlotInv n (max (min 5 n) m) (pass3 n a) := by
  have q1 := pass3Step_inv hmn hm5 (by omega)
    (show c = max (min 0 n) m by omega) hinv
  have q2 := pass3Step_inv hmn hm5 (by omega) rfl q1
  have q3 := pass3Step_inv hmn hm5 (by omega) rfl q2
  have q4 := pass3Step_inv hmn hm5 (by omega) rfl q3
  have q5 := pass3Step_inv hmn hm5 (by omega) rfl q4
  exact q5

/-- C2 (amended): when every manual flag is off and the picks are
front-loaded (occupied slots precede empty ones, the shape produced by
picking in slot order), the resolver produces duplicate-free assignments:
no two slots reference the same player index. -/
theorem c2_no_duplicate_assignments_when_auto (st : TeamState)
    (hmanual : ∀ b ∈ st.manualAssignments, b = false)
    (hfront : FrontLoadedPicks st.picks) :
    InjAssign (assignHeroesToPlayers st).assignments := by
  by_cases hvp : (validPlayers st.players).isEmpty = true
  · have hform : (assignHeroesToPlayers st).assignments
        = List.replicate 5 none := by
      unfold assignHeroesToPlayers
      dsimp only
      rw [if_pos hvp]
    rw [hform]
    intro i j hi hj hij v hvi hvj
    rw [getD_replicate_none] at hvi
    exact Option.noConfusion hvi
  · obtain ⟨k, hk5, hk⟩ := frontLoaded_threshold hfront
    have hform : (assignHeroesToPlayers st).assignments
        = pass3 (validPlayers st.players).length
            (pass2 (validPlayers st.players) st.picks
              (List.replicate 5 none)) := by
      unfold assignHeroesToPlayers
      dsimp only
      rw [if_neg hvp, pass1_all_false hmanual]
    rw [hform]
    have h2 := @pass2_inv (validPlayers st.players) st.picks k hk
    have h3 := @pass3_inv (validPlayers st.players).length
        (min k (validPlayers st.players).length)
        (by omega) (by omega) _ _ (by omega) h2
    exact h3.2.2.2.1

theorem c2_no_duplicate_assignments_witness :
    (∀ b ∈ stC2W.manualAssignments, b = false)
    ∧ FrontLoadedPicks stC2W.picks
    ∧ InjAssign (assignHeroesToPlayers stC2W).assignments := by
  have hm : ∀ b ∈ stC2W.manualAssignments, b = false := by decide
  have hf : FrontLoadedPicks stC2W.picks := by
    intro i j hij hj hi
    interval_cases j <;> rfl
  exact ⟨hm, hf, c2_no_duplicate_assignments_when_auto stC2W hm hf⟩

theorem mapComponent_tags {ctx : Ctx} {hd : HeroData} {mc : ℚ × List Tag}
    {gw : ℚ} (hgw : globalWinRate hd = .ok gw)
    (h : mapComponent ctx hd = .ok mc) :
    mc.2 = if 3 ≤ jsAbs mc.1 then
      [⟨TagKind.map, selectedMapName ctx, mc.1, some (gw + mc.1)⟩]
    else [] := by
  unfold mapComponent at h
  split at h
  next sel mapsTbl hsel hmaps =>
    split at h
    next mi hfind =>
      split at h
      next md hmd =>
        split at h
        next d hd2 =>
          split at h
          next habs =>
            rw [hgw] at h
            simp only [Except.ok.injEq] at h
            subst h
            dsimp only
            rw [if_pos habs]
            simp [selectedMapName, hsel, hfind]
          next habs =>
            simp only [Except.ok.injEq] at h
            subst h
            dsimp only
            rw [if_neg habs]
        next hd2 =>
          simp only [Except.ok.injEq] at h
          subst h
          norm_num [jsAbs]
      next hmd =>
        simp only [Except.ok.injEq] at h
        subst h
        norm_num [jsAbs]
    next hfind =>
      simp only [Except.ok.injEq] at h
      subst h
      norm_num [jsAbs]
  next hother =>
    simp only [Except.ok.injEq] at h
    subst h
    norm_num [jsAbs]


theorem matchupFold_enemy_tags {hd : HeroData}
    {mu : String → Option MatchupRecord} (hmu : hd.matchups = some mu)
    {gw : ℚ} (hgw : globalWinRate hd = .ok gw)
    (picks : List Hero) (q : ℚ) (ts : List Tag) {res : ℚ × List Tag}
    (h : matchupFold (enemyStep hd mu) (q, ts) picks = .ok res) :
    res.2 = ts ++ (picks.filter fun eh =>
      decide (3 ≤ jsAbs (enemyDeltaOf hd eh.name))).map (enemyTagOf hd gw) := by
  revert h
  induction picks generalizing q ts res with
  | nil =>
    intro h
    simp only [matchupFold, Except.ok.injEq] at h
    subst h
    simp
  | cons eh rest ih =>
    intro h
    simp only [matchupFold] at h
    cases hread : ((mu eh.name).bind MatchupRecord.enemy).bind
        StatBlock.confidence_adjusted_delta with
    | none =>
      have hstep : enemyStep hd mu (q, ts) eh = .ok (q, ts) := by
        unfold enemyStep
        rw [hread]
      rw [hstep] at h
      dsimp only at h
      have hdelta : enemyDeltaOf hd eh.name = 0 := by
        simp [enemyDeltaOf, hmu, hread]
      have habs0 : ¬ (3 : ℚ) ≤ jsAbs 0 := by norm_num [jsAbs]
      rw [ih q ts h]
      simp [List.filter_cons, hdelta, habs0]
    | some d =>
      have hdelta : enemyDeltaOf hd eh.name = d := by
        simp [enemyDeltaOf, hmu, hread]
      by_cases habs : 3 ≤ jsAbs d
      · have hstep : enemyStep hd mu (q, ts) eh
            = .ok (q + d, ts ++ [⟨if 0 < d then TagKind.counter
                else TagKind.weakness, eh.name, d, some (gw + d)⟩]) := by
          unfold enemyStep
          rw [hread]
          dsimp only
          rw [if_pos habs, hgw]
        rw [hstep] at h
        dsimp only at h
        rw [ih _ _ h]
        simp [List.filter_cons, hdelta, habs, enemyTagOf]
      · have hstep : enemyStep hd mu (q, ts) eh = .ok (q + d, ts) := by
          unfold enemyStep
          rw [hread]
          dsimp only
          rw [if_neg habs]
        rw [hstep] at h
        dsimp only at h
        rw [ih _ _ h]
        simp [List.filter_cons, hdelta, habs]


theorem matchupFold_ally_tags {hd : HeroData}
    {mu : String → Option MatchupRecord} (hmu : hd.matchups = some mu)
    {gw : ℚ} (hgw : globalWinRate hd = .ok gw)
    (picks : List Hero) (q : ℚ) (ts : List Tag) {res : ℚ × List Tag}
    (h : matchupFold (allyStep hd mu) (q, ts) picks = .ok res) :
    res.2 = ts ++ (picks.filter fun ah =>
      decide (3 ≤ jsAbs (allyDeltaOf hd ah.name))).map (allyTagOf hd gw) := by
  revert h
  induction picks generalizing q ts res with
  | nil =>
    intro h
    simp only [matchupFold, Except.ok.injEq] at h
    subst h
    simp
  | cons ah rest ih =>
    intro h
    simp only [matchupFold] at h
    cases hread : ((mu ah.name).bind MatchupRecord.ally).bind
        StatBlock.confidence_adjusted_delta with
    | none =>
      have hstep : allyStep hd mu (q, ts) ah = .ok (q, ts) := by
        unfold allyStep
        rw [hread]
      rw [hstep] at h
      dsimp only at h
      have hdelta : allyDeltaOf hd ah.name = 0 := by
        simp [allyDeltaOf, hmu, hread]
      have habs0 : ¬ (3 : ℚ) ≤ jsAbs 0 := by norm_num [jsAbs]
      rw [ih q ts h]
      simp [List.filter_cons, hdelta, habs0]
    | some d =>
      have hdelta : allyDeltaOf hd ah.name = d := by
        simp [allyDeltaOf, hmu, hread]
      by_cases habs : 3 ≤ jsAbs d
      · have hstep : allyStep hd mu (q, ts) ah
            = .ok (q + d, ts ++ [⟨if 0 < d then TagKind.synergy
                else TagKind.antisynergy, ah.name, d, some (gw + d)⟩]) := by
          unfold allyStep
          rw [hread]
          dsimp only
          rw [if_pos habs, hgw]
        rw [hstep] at h
        dsimp only at h
        rw [ih _ _ h]
        simp [List.filter_cons, hdelta, habs, allyTagOf]
      · have hstep : allyStep hd mu (q, ts) ah = .ok (q + d, ts) := by
          unfold allyStep
          rw [hread]
          dsimp only
          rw [if_neg habs]
        rw [hstep] at h
        dsimp only at h
        rw [ih _ _ h]
        simp [List.filter_cons, hdelta, habs]


theorem playerTags_eq (players : List (Option Player))
    (a : List (Option ℕ)) (picks : List (Option Hero)) (nm : String) :
    playerTags players a picks nm =
      if 1 ≤ jsAbs (getPlayerWinRateDelta players a picks nm) then
        match playerTagScan players a picks nm with
        | (some x, _) => [⟨TagKind.player, x,
            getPlayerWinRateDelta players a picks nm, none⟩]
        | (none, _) => []
      else [] := by
  unfold playerTags
  dsimp only
  by_cases h0 : getPlayerWinRateDelta players a picks nm = 0
  · rw [if_pos h0, h0]
    rw [if_neg (show ¬ (1 : ℚ) ≤ jsAbs 0 by norm_num [jsAbs])]
  · rw [if_neg h0]


theorem enemyComponent_tags {hd : HeroData} {gw : ℚ}
    (hgw : globalWinRate hd = .ok gw) {picks : List Hero} {ec : ℚ × List Tag}
    (h : enemyComponent hd picks = .ok ec) :
    ec.2 = (picks.filter fun eh =>
      decide (3 ≤ jsAbs (enemyDeltaOf hd eh.name))).map (enemyTagOf hd gw) := by
  unfold enemyComponent at h
  split at h
  next hmu =>
    simp only [Except.ok.injEq] at h
    subst h
    dsimp only
    have hnil : (picks.filter fun eh =>
        decide (3 ≤ jsAbs (enemyDeltaOf hd eh.name))) = [] := by
      rw [List.filter_eq_nil_iff]
      intro eh _
      rw [show enemyDeltaOf hd eh.name = 0 by simp [enemyDeltaOf, hmu]]
      norm_num [jsAbs]
    rw [hnil, List.map_nil]
  next mu hmu =>
    have := matchupFold_enemy_tags hmu hgw picks 0 [] h
    simpa using this


theorem allyComponent_tags {hd : HeroData} {gw : ℚ}
    (hgw : globalWinRate hd = .ok gw) {picks : List Hero} {ac : ℚ × List Tag}
    (h : allyComponent hd picks = .ok ac) :
    ac.2 = (picks.filter fun ah =>
      decide (3 ≤ jsAbs (allyDeltaOf hd ah.name))).map (allyTagOf hd gw) := by
  unfold allyComponent at h
  split at h
  next hmu =>
    simp only [Except.ok.injEq] at h
    subst h
    dsimp only
    have hnil : (picks.filter fun ah =>
        decide (3 ≤ jsAbs (allyDeltaOf hd ah.name))) = [] := by
      rw [List.filter_eq_nil_iff]
      intro ah _
      rw [show allyDeltaOf hd ah.name = 0 by simp [allyDeltaOf, hmu]]
      norm_num [jsAbs]
    rw [hnil, List.map_nil]
  next mu hmu =>
    have := matchupFold_ally_tags hmu hgw picks 0 [] h
    simpa using this


/-- C8 (amended): tags are per-source, not per-component. For a catalog
hero with a `global` block, the tag list of an error-free score is exactly:
one map tag when the map delta's magnitude reaches 3, one counter/weakness
tag per enemy pick whose recorded matchup delta has magnitude at least 3,
one synergy/antisynergy tag per own-side pick whose as-ally delta has
magnitude at least 3, and at most one player tag, present only when the
player delta's magnitude reaches 1 and the scan names a player. The global
component never yields a tag. -/
theorem c8_tags_per_source (ctx : Ctx) (own enemySide : TeamState)
    (heroName : String) (hd : HeroData) (gw : ℚ) (r : ScoreResult)
    (hhd : ctx.heroesData heroName = some hd)
    (hgw : globalWinRate hd = .ok gw)
    (hok : calculateHeroScore ctx own enemySide heroName = .ok r) :
    ∃ b, r.breakdown = some b ∧ r.tags =
      (if 3 ≤ jsAbs b.map then
        [⟨TagKind.map, selectedMapName ctx, b.map, some (gw + b.map)⟩]
      else [])
      ++ ((enemySide.picks.filterMap id).filter fun eh =>
          decide (3 ≤ jsAbs (enemyDeltaOf hd eh.name))).map (enemyTagOf hd gw)
      ++ ((own.picks.filterMap id).filter fun ah =>
          decide (3 ≤ jsAbs (allyDeltaOf hd ah.name))).map (allyTagOf hd gw)
      ++ (if 1 ≤ jsAbs b.playerDelta then
          match playerTagScan own.players own.assignments own.picks
              heroName with
          | (some x, _) => [⟨TagKind.player, x, b.playerDelta, none⟩]
          | (none, _) => []
        else []) := by
  unfold calculateHeroScore at hok
  split at hok
  next hhd2 =>
    rw [hhd] at hhd2
    exact Option.noConfusion hhd2
  next hd2 hhd2 =>
    rw [hhd] at hhd2
    have hdeq : hd = hd2 := Option.some.inj hhd2
    subst hdeq
    split at hok
    next e hmc => exact Except.noConfusion hok
    next mc hmc =>
      split at hok
      next e hec => exact Except.noConfusion hok
      next ec hec =>
        split at hok
        next e hac => exact Except.noConfusion hok
        next ac hac =>
          dsimp only at hok
          simp only [Except.ok.injEq] at hok
          refine ⟨⟨(hd.global.bind StatBlock.confidence_adjusted_delta).getD 0,
            mc.1, ec.1, ac.1,
            getPlayerWinRateDelta own.players own.assignments own.picks
              heroName⟩, ?_, ?_⟩
          · rw [← hok]
          · rw [← hok]
            dsimp only
            rw [mapComponent_tags hgw hmc, enemyComponent_tags hgw hec,
              allyComponent_tags hgw hac, playerTags_eq]

theorem c8_tags_witness :
    ctxTagFx.heroesData "X" = some hdTagFx
    ∧ globalWinRate hdTagFx = .ok 55
    ∧ calculateHeroScore ctxTagFx stTagOwn stTagEnemy "X" = .ok rTagFx
    ∧ ∃ b, rTagFx.breakdown = some b ∧ rTagFx.tags =
      (if 3 ≤ jsAbs b.map then
        [⟨TagKind.map, selectedMapName ctxTagFx, b.map, some (55 + b.map)⟩]
      else [])
      ++ ((stTagEnemy.picks.filterMap id).filter fun eh =>
          decide (3 ≤ jsAbs (enemyDeltaOf hdTagFx eh.name))).map
        (enemyTagOf hdTagFx 55)
      ++ ((stTagOwn.picks.filterMap id).filter fun ah =>
          decide (3 ≤ jsAbs (allyDeltaOf hdTagFx ah.name))).map
        (allyTagOf hdTagFx 55)
      ++ (if 1 ≤ jsAbs b.playerDelta then
          match playerTagScan stTagOwn.players stTagOwn.assignments
              stTagOwn.picks "X" with
          | (some x, _) => [⟨TagKind.player, x, b.playerDelta, none⟩]
          | (none, _) => []
        else []) := by
  have hhd : ctxTagFx.heroesData "X" = some hdTagFx := rfl
  have hgw : globalWinRate hdTagFx = .ok 55 := by
    norm_num [globalWinRate, hdTagFx, wrOr50]
  have hok : calculateHeroScore ctxTagFx stTagOwn stTagEnemy "X"
      = .ok rTagFx := by
    norm_num [calculateHeroScore, ctxTagFx, hdTagFx, muTagFx, mapComponent,
      enemyComponent, allyComponent, matchupFold, enemyStep, allyStep,
      globalWinRate, wrOr50, stTagOwn, stTagEnemy, emptyTeam, jsAbs,
      getPlayerWinRateDelta, playerTags, playerTagScan, tagScanStep,
      bestDeltaStep, List.enum, rTagFx, List.filterMap_cons,
      List.filterMap_nil, show ¬("B" : String) = "E" by decide]
  exact ⟨hhd, hgw, hok,
    c8_tags_per_source ctxTagFx stTagOwn stTagEnemy "X" hdTagFx 55 rTagFx
      hhd hgw hok⟩
